import Mathlib

/-!
Verification of the powersum repository: the exhaustive feasibility engine
(`exhaustive_verify.py`) and the ADF decomposition verifier (`adf_verifier.py`),
shallowly embedded in Lean.  Machine integers are modelled by `ℕ`/`ℤ` (Python
integers are unbounded), the mutable `sizes` array by its closed-form contents,
and the line-oriented parser by a fold over the input lines with an `Except`
short circuit.
-/

/-- Number of set bits, `bin(x).count('1')`.  Fuel-based so that it reduces
structurally in the kernel; `popcountAux fuel n` is correct whenever
`n ≤ fuel`. -/
def popcountAux : ℕ → ℕ → ℕ
  | 0, _ => 0
  | fuel + 1, n => if n = 0 then 0 else n % 2 + popcountAux fuel (n / 2)

def popcount (n : ℕ) : ℕ := popcountAux n n

/-- Sign of a mask's inclusion-exclusion term: `+1` for odd popcount,
`-1` for even. -/
def maskSign (mask : ℕ) : ℤ := if popcount mask % 2 = 1 then 1 else -1

/-- The masks `1, 2, ..., 2^k - 1` (all nonempty subsets of the `k` indices),
`range(1, num_masks + 1)` in the source. -/
def maskList (k : ℕ) : List ℕ := (List.range (2 ^ k - 1)).map (· + 1)

namespace ExhaustiveVerify

/-- Model of `compute_union_size(sizes, k)` in `exhaustive_verify.py`:
`Σ_{mask} (-1)^(popcount mask + 1) * 2^(sizes[mask-1])`. -/
def computeUnionSize (sizes : List ℕ) (k : ℕ) : ℤ :=
  ((maskList k).map (fun mask => maskSign mask * 2 ^ (sizes.getD (mask - 1) 0))).sum

/-- The Möbius region size of mask `K` computed inside `check_constraints`:
`Σ_{J ⊇ K} (-1)^(popcount J - popcount K) * sizes[J-1]`. -/
def regionSize (sizes : List ℕ) (k K : ℕ) : ℤ :=
  (((maskList k).filter (fun J => J &&& K == K)).map
    (fun J => (if (popcount J - popcount K) % 2 = 0 then (1 : ℤ) else -1) *
      (sizes.getD (J - 1) 0 : ℤ))).sum

/-- Model of `check_constraints(sizes, k)`: monotonicity over all superset pairs, then
Möbius region non-negativity for every mask. -/
def checkConstraints (sizes : List ℕ) (k : ℕ) : Bool :=
  ((maskList k).all fun m1 => (maskList k).all fun m2 =>
    if m1 ≠ m2 ∧ m1 &&& m2 = m2 then sizes.getD (m1 - 1) 0 ≤ sizes.getD (m2 - 1) 0
    else true) &&
  ((maskList k).all fun K => (0 : ℤ) ≤ regionSize sizes k K)

/-- Python `n.bit_length()` (fuel-based for kernel reduction). -/
def bitLengthAux : ℕ → ℕ → ℕ
  | 0, _ => 0
  | fuel + 1, n => if n = 0 then 0 else bitLengthAux fuel (n / 2) + 1

def bitLength (n : ℕ) : ℕ := bitLengthAux n n

/-- The default ceiling: `n.bit_length() - 1 if n > 0 else 0`. -/
def defaultMaxSize (n : ℤ) : ℕ := if 0 < n then bitLength n.toNat - 1 else 0

/-- Source list `singleton_masks = [1 << i for i in range(k)]`. -/
def singletonMasks (k : ℕ) : List ℕ := (List.range k).map (2 ^ ·)

/-- Model of `itertools.product` over a list of ranges, leftmost component varying
slowest (the iteration order of the source). -/
def listProd : List (List ℕ) → List (List ℕ)
  | [] => [[]]
  | r :: rs => r.flatMap fun x => (listProd rs).map (x :: ·)

/-- The symmetry-breaking filter
`all(singleton_sizes[i] >= singleton_sizes[i+1] for i in range(k-1))`. -/
def nonIncreasing (k : ℕ) (t : List ℕ) : Bool :=
  (List.range (k - 1)).all fun i => t.getD (i + 1) 0 ≤ t.getD i 0

/-- The outer enumeration: `product(range(max_size + 1), repeat=k)` restricted
by the symmetry-breaking filter. -/
def singletonTuples (M k : ℕ) : List (List ℕ) :=
  (listProd (List.replicate k (List.range (M + 1)))).filter (nonIncreasing k)

/-- The contents of the `sizes` array right after the singleton entries are
written and before the inner loop runs: singleton masks carry the tuple `s`,
every other mask still holds `0`. -/
def baseSizes (k : ℕ) (s : List ℕ) : List ℕ :=
  (List.range (2 ^ k - 1)).map fun idx =>
    if idx + 1 ∈ singletonMasks k then
      s.getD ((singletonMasks k).findIdx (· == idx + 1)) 0
    else 0

/-- Computation of `max_val` for one non-singleton mask: start from `max_size` and take the
minimum over the current `sizes` entry of every proper submask. -/
def maxVal (M k : ℕ) (sizes0 : List ℕ) (mask : ℕ) : ℕ :=
  ((maskList k).filter fun sm => mask &&& sm == sm && sm != mask).foldl
    (fun acc sm => min acc (sizes0.getD (sm - 1) 0)) M

/-- The non-singleton masks in increasing order (the order in which `ranges`
and `non_singleton_masks` are built). -/
def nonSingletonMasks (k : ℕ) : List ℕ :=
  (maskList k).filter fun m => !((singletonMasks k).contains m)

/-- The `ranges` list: one `range(max_val + 1)` per non-singleton mask, computed from
the pre-inner-loop `sizes` array. -/
def rangesList (M k : ℕ) (sizes0 : List ℕ) : List (List ℕ) :=
  (nonSingletonMasks k).map fun mask => List.range (maxVal M k sizes0 mask + 1)

/-- The full `sizes` array for one inner candidate: singleton masks carry the
tuple `s`, non-singleton masks carry the entries of `inner` in the order of
`nonSingletonMasks`. -/
def candSizes (k : ℕ) (s inner : List ℕ) : List ℕ :=
  (List.range (2 ^ k - 1)).map fun idx =>
    if idx + 1 ∈ singletonMasks k then
      s.getD ((singletonMasks k).findIdx (· == idx + 1)) 0
    else inner.getD ((nonSingletonMasks k).findIdx (· == idx + 1)) 0

/-- The test applied to each candidate: `check_constraints` and then the
target equation (in the source's short-circuit order). -/
def accept (n : ℤ) (k : ℕ) (sizes : List ℕ) : Bool :=
  checkConstraints sizes k && (computeUnionSize sizes k == n)

/-- Every candidate `sizes` vector examined by `exhaustive_search`, in
enumeration order. -/
def candidates (n : ℤ) (k : ℕ) (maxSize : Option ℕ) : List (List ℕ) :=
  let M := maxSize.getD (defaultMaxSize n)
  (singletonTuples M k).flatMap fun s =>
    (listProd (rangesList M k (baseSizes k s))).map (candSizes k s)

/-- Model of `exhaustive_search(n, k, max_size)`: `some sizes` is the feasible outcome
with the first satisfying vector, `none` is the infeasible outcome. -/
def exhaustiveSearch (n : ℤ) (k : ℕ) (maxSize : Option ℕ) : Option (List ℕ) :=
  (candidates n k maxSize).find? (accept n k)

/-- The inner loop for one fixed singleton tuple `s`: `true` when every inner
candidate generated from `s` is rejected by `accept`. -/
def innerAllFalse (n : ℤ) (M k : ℕ) (s : List ℕ) : Bool :=
  ((listProd (rangesList M k (baseSizes k s))).map (candSizes k s)).all fun c => !(accept n k c)

/-- The final value of the source's `count` variable: the number of candidate
vectors examined (the successful one included). -/
def countExamined (n : ℤ) (k : ℕ) (maxSize : Option ℕ) : ℕ :=
  match (candidates n k maxSize).findIdx? (accept n k) with
  | some i => i + 1
  | none => (candidates n k maxSize).length

/-- The candidate loop with the wall-clock progress reporting modelled
explicitly: `clock i` is the `time.time()` reading while examining the `i`-th
candidate, the second component collects the candidate counts at which a
progress line is printed. -/
def searchLoop (clock : ℕ → ℕ) (n : ℤ) (k : ℕ) :
    List (List ℕ) → ℕ → ℕ → List ℕ → Option (List ℕ) × List ℕ
  | [], _, _, log => (none, log.reverse)
  | c :: rest, count, lastReport, log =>
    let count' := count + 1
    let t := clock count'
    let lastReport' := if lastReport + 5 < t then t else lastReport
    let log' := if lastReport + 5 < t then count' :: log else log
    if accept n k c then (some c, log'.reverse)
    else searchLoop clock n k rest count' lastReport' log'

def exhaustiveSearchTimed (clock : ℕ → ℕ) (n : ℤ) (k : ℕ) (maxSize : Option ℕ) :
    Option (List ℕ) × List ℕ :=
  searchLoop clock n k (candidates n k maxSize) 0 (clock 0) []

/-- Exit code of `exhaustive_verify.py`'s `main`: `1` when too few arguments
are given, otherwise the search runs, its result is discarded, and the
process exits normally with `0`. -/
def mainExitCode (argsOk : Bool) (n : ℤ) (k : ℕ) (maxSize : Option ℕ) : ℕ :=
  if argsOk then
    let _ := exhaustiveSearch n k maxSize
    0
  else 1

/-- Invariant 1 of the spec, as independently re-checked: `A ⊇ B` implies
`d[A] ≤ d[B]`. -/
@[reducible]
def monotoneOK (k : ℕ) (d : List ℕ) : Prop :=
  ∀ A ∈ maskList k, ∀ B ∈ maskList k, A &&& B = B →
    d.getD (A - 1) 0 ≤ d.getD (B - 1) 0

/-- Invariant 2: every Möbius region size is nonnegative. -/
@[reducible]
def regionsOK (k : ℕ) (d : List ℕ) : Prop :=
  ∀ K ∈ maskList k, (0 : ℤ) ≤ regionSize d k K

/-- Invariant 3: the singleton sizes `d[{1}] ≥ d[{2}] ≥ ... ≥ d[{k}]`. -/
@[reducible]
def singlesNonInc (k : ℕ) (d : List ℕ) : Prop :=
  ∀ i ∈ List.range (k - 1), d.getD (2 ^ (i + 1) - 1) 0 ≤ d.getD (2 ^ i - 1) 0

end ExhaustiveVerify

namespace AdfVerifier

/-- Python `str.strip()` on a list of characters. -/
def pyStrip (cs : List Char) : List Char :=
  ((cs.dropWhile Char.isWhitespace).reverse.dropWhile Char.isWhitespace).reverse

/-- Python `str.split()` (split on whitespace runs, no empty tokens). -/
def pySplitAux : List Char → List Char → List (List Char)
  | [], [] => []
  | [], cur => [cur.reverse]
  | c :: rest, cur =>
    if c.isWhitespace then
      if cur = [] then pySplitAux rest []
      else cur.reverse :: pySplitAux rest []
    else pySplitAux rest (c :: cur)

def pySplit (cs : List Char) : List (List Char) := pySplitAux cs []

/-- Digit-string value, `none` when some character is not a decimal digit or
the string is empty. -/
def parseDigits (cs : List Char) : Option ℕ :=
  if cs = [] then none
  else if cs.all (·.isDigit) then
    some (cs.foldl (fun acc c => 10 * acc + (c.toNat - 48)) 0)
  else none

/-- Python `int(token)` on a whitespace-free token: optional sign followed by
decimal digits, `none` models the `ValueError`. -/
def pyInt (cs : List Char) : Option ℤ :=
  match cs with
  | '-' :: rest => (parseDigits rest).map (fun v => -(v : ℤ))
  | '+' :: rest => (parseDigits rest).map (fun v => (v : ℤ))
  | _ => (parseDigits cs).map (fun v => (v : ℤ))

/-- Parser state of `parse_adf`: the declared `n` and `k` (still `None` before a
problem line), the sets collected so far, and `expected_set_id`. -/
structure PState where
  n : Option ℤ
  k : Option ℤ
  sets : List (Finset ℤ)
  expected : ℤ
deriving DecidableEq

def initState : PState := ⟨none, none, [], 1⟩

/-- Element-list parsing inside a set line: every token must be a nonnegative
integer. -/
def parseElems : List (List Char) → Except String (List ℤ)
  | [] => .ok []
  | t :: rest =>
    match pyInt t with
    | none => .error "invalid literal for int()"
    | some v =>
      if v < 0 then .error "Negative element"
      else (parseElems rest).map (fun l => v :: l)

/-- One iteration of the line loop of `parse_adf` (the stripped line and its
token list are written out in full instead of bound to Python's local
variables `line` and `parts`). -/
def processLine (st : PState) (raw : String) : Except String PState :=
  if pyStrip raw.data = [] then .ok st
  else if (pyStrip raw.data).head? = some 'c' then .ok st
  else if (pyStrip raw.data).head? = some 'p' then
    if (pySplit (pyStrip raw.data)).length ≠ 4 ∨
        (pySplit (pyStrip raw.data)).getD 1 [] ≠ "alpha".data then
      .error "Invalid problem line"
    else
      match pyInt ((pySplit (pyStrip raw.data)).getD 2 []),
          pyInt ((pySplit (pyStrip raw.data)).getD 3 []) with
      | some nv, some kv =>
        if nv ≤ 0 ∨ kv ≤ 0 then .error "n and k must be positive"
        else .ok { st with n := some nv, k := some kv }
      | _, _ => .error "invalid literal for int()"
  else if (pyStrip raw.data).head? = some 's' then
    if st.n = none ∨ st.k = none then .error "Set line before problem line"
    else
      if (pySplit (pyStrip raw.data)).length < 3 then .error "Invalid set line"
      else
        match pyInt ((pySplit (pyStrip raw.data)).getD 1 []) with
        | none => .error "invalid literal for int()"
        | some sid =>
          if sid ≠ st.expected then .error "Unexpected set id"
          else if (pySplit (pyStrip raw.data)).getLast? ≠ some ['0'] then
            .error "Set line must end with 0"
          else
            match parseElems (((pySplit (pyStrip raw.data)).drop 2).dropLast) with
            | .error e => .error e
            | .ok elems =>
              .ok { st with sets := st.sets ++ [elems.toFinset],
                            expected := st.expected + 1 }
  else .error "Unknown line type"

/-- Model of `parse_adf`: fold the line loop, then check that exactly `k` sets were
collected (`len(sets) != k` also fires when no problem line set `k`). -/
def parseADF (lines : List String) : Except String (ℤ × ℤ × List (Finset ℤ)) := do
  let st ← lines.foldlM processLine initState
  match st.n, st.k with
  | some nv, some kv =>
    if (st.sets.length : ℤ) ≠ kv then .error "Wrong number of sets"
    else .ok (nv, kv, st.sets)
  | _, _ => .error "Wrong number of sets"

/-- The intersection loop of `compute_union_size`: `None` accumulator start,
the `i`-th set is intersected in when bit `i` of `mask` is set. -/
def interOpt : List (Finset ℤ) → ℕ → Option (Finset ℤ) → Option (Finset ℤ)
  | [], _, acc => acc
  | S :: rest, mask, acc =>
    interOpt rest (mask / 2)
      (if mask % 2 = 1 then
        some (match acc with | none => S | some t => t ∩ S)
      else acc)

/-- Entry `intersection_sizes[mask]`: `len(intersection) if intersection else 0`. -/
def interSize (sets : List (Finset ℤ)) (mask : ℕ) : ℕ :=
  match interOpt sets mask none with
  | none => 0
  | some t => t.card

/-- Model of `compute_union_size(sets)` in `adf_verifier.py`: exact inclusion-exclusion
over the true intersections of the element sets. -/
def computeUnionSize (sets : List (Finset ℤ)) : ℤ :=
  if sets.length = 0 then 0
  else ((maskList sets.length).map
    (fun mask => maskSign mask * 2 ^ interSize sets mask)).sum

/-- Model of `verify_decomposition(n, k, sets)` (the `k` argument is unused by the
source as well). -/
def verifyDecomposition (n kDecl : ℤ) (sets : List (Finset ℤ)) : Bool × ℤ :=
  let unionSize := computeUnionSize sets
  (unionSize == n, unionSize)

/-- Exit code of `adf_verifier.py`'s `main`: `1` on a missing file, a parse
error, or a failed verification; `0` on a verified decomposition. -/
def mainExitCode (fileExists : Bool) (lines : List String) : ℕ :=
  if ¬ fileExists then 1
  else
    match parseADF lines with
    | .error _ => 1
    | .ok (n, k, sets) => if (verifyDecomposition n k sets).1 then 0 else 1

/-- Ground truth for the verifier: the union `2^S1 ∪ ... ∪ 2^Sk` as an actual
finite family of finite sets. -/
def unionPowersets (sets : List (Finset ℤ)) : Finset (Finset ℤ) :=
  sets.foldr (fun S acc => S.powerset ∪ acc) ∅

/-- Spec-side classification of a raw line as a set line. -/
def isSetLine (raw : String) : Bool := (pyStrip raw.data).head? == some 's'

/-- The id tokens of the set lines of an artifact, as parsed integers. -/
def setIds (lines : List String) : List (Option ℤ) :=
  (lines.filter isSetLine).map fun raw => pyInt ((pySplit (pyStrip raw.data)).getD 1 [])

/-- The set lines appear in strictly increasing sequential order `1, 2, ...`. -/
@[reducible]
def sequentialIds (lines : List String) : Prop :=
  setIds lines = (List.range (setIds lines).length).map (fun i : ℕ => some ((i : ℤ) + 1))

/-- A set line carries the terminating `0` marker. -/
@[reducible]
def hasTerminator (raw : String) : Prop :=
  (pySplit (pyStrip raw.data)).getLast? = some ['0']

/-- Every element token of a set line is a nonnegative integer. -/
@[reducible]
def labelsOK (raw : String) : Prop :=
  ∀ t ∈ ((pySplit (pyStrip raw.data)).drop 2).dropLast,
    ∃ v, pyInt t = some v ∧ 0 ≤ v

/-- Spec-side reading of a problem line's declared `(n, k)` pair. -/
def problemDecl (raw : String) : Option (ℤ × ℤ) :=
  let line := pyStrip raw.data
  let parts := pySplit line
  if line.head? = some 'p' ∧ parts.length = 4 ∧ parts.getD 1 [] = "alpha".data then
    match pyInt (parts.getD 2 []), pyInt (parts.getD 3 []) with
    | some nv, some kv => some (nv, kv)
    | _, _ => none
  else none

/-- Spec-side classification of a raw line as a problem line. -/
def isProblemLine (raw : String) : Bool := (pyStrip raw.data).head? == some 'p'

/-- A line the parser skips: blank or comment. -/
def isSkippable (raw : String) : Bool :=
  (pyStrip raw.data) = [] || (pyStrip raw.data).head? == some 'c'

end AdfVerifier


section PopcountLemmas

theorem popcountAux_zero (fuel : ℕ) : popcountAux fuel 0 = 0 := by
  cases fuel <;> simp [popcountAux]

theorem popcountAux_stable :
    ∀ (f1 : ℕ) {f2 n : ℕ}, n ≤ f1 → n ≤ f2 → popcountAux f1 n = popcountAux f2 n := by
  intro f1
  induction f1 with
  | zero =>
    intro f2 n h1 _
    interval_cases n
    rw [popcountAux_zero, popcountAux_zero]
  | succ f ih =>
    intro f2 n h1 h2
    rcases Nat.eq_zero_or_pos n with rfl | hn
    · rw [popcountAux_zero, popcountAux_zero]
    · cases f2 with
      | zero => omega
      | succ g =>
        have hd : n / 2 < n := Nat.div_lt_self hn (by norm_num)
        have hdf : n / 2 ≤ f := by omega
        have hdg : n / 2 ≤ g := by omega
        simp only [popcountAux, if_neg (Nat.pos_iff_ne_zero.mp hn)]
        rw [ih hdf hdg]

theorem popcount_div2 (n : ℕ) : popcount n = n % 2 + popcount (n / 2) := by
  rcases Nat.eq_zero_or_pos n with rfl | hn
  · simp [popcount, popcountAux]
  · cases n with
    | zero => omega
    | succ m =>
      have hd : (m + 1) / 2 ≤ m := by omega
      unfold popcount
      simp only [popcountAux, if_neg (Nat.succ_ne_zero m)]
      rw [popcountAux_stable m hd (le_refl _)]

theorem popcount_zero : popcount 0 = 0 := rfl

theorem popcount_two_mul (m : ℕ) : popcount (2 * m) = popcount m := by
  rw [popcount_div2 (2 * m), Nat.mul_mod_right, Nat.mul_div_cancel_left _ (by norm_num : 0 < 2)]
  omega

theorem popcount_two_mul_add_one (m : ℕ) : popcount (2 * m + 1) = popcount m + 1 := by
  rw [popcount_div2 (2 * m + 1), Nat.mul_add_mod, Nat.mul_add_div (by norm_num : 0 < 2)]
  norm_num [Nat.add_comm]

theorem popcount_two_pow (i : ℕ) : popcount (2 ^ i) = 1 := by
  induction i with
  | zero => rfl
  | succ j ih => rw [pow_succ, mul_comm, popcount_two_mul, ih]

theorem popcount_eq_zero_iff {n : ℕ} : popcount n = 0 ↔ n = 0 := by
  constructor
  · intro h
    induction n using Nat.strong_induction_on with
    | _ n ih =>
      rcases Nat.eq_zero_or_pos n with rfl | hn
      · rfl
      · rw [popcount_div2] at h
        have h2 : n % 2 = 0 := by omega
        have h3 : popcount (n / 2) = 0 := by omega
        have := ih (n / 2) (Nat.div_lt_self hn (by norm_num)) h3
        omega
  · rintro rfl; rfl

theorem exists_pow_of_popcount_one : ∀ {m : ℕ}, popcount m = 1 → ∃ i, m = 2 ^ i := by
  intro m
  induction m using Nat.strong_induction_on with
  | _ m ih =>
    intro h
    rcases Nat.eq_zero_or_pos m with rfl | hm
    · simp [popcount_zero] at h
    · rw [popcount_div2] at h
      rcases Nat.mod_two_eq_zero_or_one m with he | ho
      · have h2 : popcount (m / 2) = 1 := by omega
        obtain ⟨i, hi⟩ := ih (m / 2) (Nat.div_lt_self hm (by norm_num)) h2
        refine ⟨i + 1, ?_⟩
        have := Nat.div_add_mod m 2
        rw [pow_succ, mul_comm]
        omega
      · have h2 : popcount (m / 2) = 0 := by omega
        have h3 : m / 2 = 0 := popcount_eq_zero_iff.mp h2
        refine ⟨0, ?_⟩
        have := Nat.div_add_mod m 2
        omega

theorem and_div_two (a b : ℕ) : (a &&& b) / 2 = (a / 2) &&& (b / 2) := by
  apply Nat.eq_of_testBit_eq
  intro i
  simp only [← Nat.testBit_succ, Nat.testBit_and]

theorem mod_two_eq_one_of_and {a b : ℕ} (h : b &&& a = a) (ha : a % 2 = 1) : b % 2 = 1 := by
  have h0 : (b &&& a).testBit 0 = a.testBit 0 := by rw [h]
  rw [Nat.testBit_and, Nat.testBit_zero, Nat.testBit_zero] at h0
  simpa [ha] using h0

theorem submask_div_two {a b : ℕ} (h : b &&& a = a) : (b / 2) &&& (a / 2) = a / 2 := by
  have := and_div_two b a
  rw [h] at this
  omega

theorem popcount_le_of_submask : ∀ {a b : ℕ}, b &&& a = a → popcount a ≤ popcount b := by
  intro a
  induction a using Nat.strong_induction_on with
  | _ a ih =>
    intro b h
    rcases Nat.eq_zero_or_pos a with rfl | ha
    · simp [popcount_zero]
    · have hsub := submask_div_two h
      have hlt : a / 2 < a := Nat.div_lt_self ha (by norm_num)
      have hrec := ih (a / 2) hlt hsub
      have hpar : a % 2 ≤ b % 2 := by
        rcases Nat.mod_two_eq_zero_or_one a with he | ho
        · omega
        · rw [mod_two_eq_one_of_and h ho]; omega
      rw [popcount_div2 a, popcount_div2 b]
      omega

theorem popcount_lt_of_submask_ne : ∀ {b a : ℕ}, b &&& a = a → a ≠ b → popcount a < popcount b := by
  intro b
  induction b using Nat.strong_induction_on with
  | _ b ih =>
    intro a h hne
    rcases Nat.eq_zero_or_pos b with rfl | hb
    · rw [Nat.zero_and] at h
      omega
    · have hsub := submask_div_two h
      have hlt : b / 2 < b := Nat.div_lt_self hb (by norm_num)
      have hpar : a % 2 ≤ b % 2 := by
        rcases Nat.mod_two_eq_zero_or_one a with he | ho
        · omega
        · rw [mod_two_eq_one_of_and h ho]; omega
      rcases eq_or_ne (a / 2) (b / 2) with hd | hd
      · have hm : a % 2 ≠ b % 2 := by
          intro hmm
          apply hne
          have h1 := Nat.div_add_mod a 2
          have h2 := Nat.div_add_mod b 2
          omega
        rw [popcount_div2 a, popcount_div2 b, hd]
        omega
      · have := ih (b / 2) hlt hsub hd
        rw [popcount_div2 a, popcount_div2 b]
        omega

end PopcountLemmas

section SumLemmas

theorem listRange_map_sum (f : ℕ → ℤ) (n : ℕ) :
    ((List.range n).map f).sum = ∑ i ∈ Finset.range n, f i := by
  induction n with
  | zero => rfl
  | succ m ih => rw [List.range_succ, List.map_append, List.sum_append, Finset.sum_range_succ, ih]
                 simp

theorem maskList_map_sum (f : ℕ → ℤ) (k : ℕ) :
    ((maskList k).map f).sum = ∑ m ∈ Finset.Ico 1 (2 ^ k), f m := by
  rw [maskList, List.map_map, listRange_map_sum, Finset.sum_Ico_eq_sum_range]
  simp [Function.comp, Nat.add_comm]

theorem sum_Ico_one_double (g : ℕ → ℤ) (M : ℕ) (hM : 0 < M) :
    ∑ m ∈ Finset.Ico 1 (2 * M), g m
      = g 1 + ∑ m ∈ Finset.Ico 1 M, (g (2 * m) + g (2 * m + 1)) := by
  induction M, hM using Nat.le_induction with
  | base =>
    rw [show 2 * 1 = 1 + 1 by rfl, Finset.sum_Ico_succ_top (le_refl 1), Finset.Ico_self]
    simp
  | succ M hM ih =>
    have h1 : (1 : ℕ) ≤ 2 * M := by omega
    have h2 : (1 : ℕ) ≤ 2 * M + 1 := by omega
    rw [show 2 * (M + 1) = (2 * M + 1) + 1 by ring, Finset.sum_Ico_succ_top h2,
      show 2 * M + 1 = (2 * M) + 1 by rfl, Finset.sum_Ico_succ_top h1, ih,
      Finset.sum_Ico_succ_top hM]
    ring

theorem maskSign_two_mul (m : ℕ) : maskSign (2 * m) = maskSign m := by
  unfold maskSign
  rw [popcount_two_mul]

theorem maskSign_two_mul_add_one (m : ℕ) : maskSign (2 * m + 1) = -maskSign m := by
  unfold maskSign
  rw [popcount_two_mul_add_one]
  rcases Nat.mod_two_eq_zero_or_one (popcount m) with h | h <;> simp [Nat.add_mod, h]

theorem maskSign_one : maskSign 1 = 1 := rfl

theorem signSum (k : ℕ) (hk : 1 ≤ k) : ∑ m ∈ Finset.Ico 1 (2 ^ k), maskSign m = 1 := by
  obtain ⟨j, rfl⟩ : ∃ j, k = j + 1 := ⟨k - 1, by omega⟩
  rw [pow_succ, mul_comm, sum_Ico_one_double maskSign (2 ^ j) (Nat.pos_pow_of_pos j (by norm_num)),
    maskSign_one]
  have hz : ∀ m ∈ Finset.Ico 1 (2 ^ j), maskSign (2 * m) + maskSign (2 * m + 1) = 0 := by
    intro m _
    rw [maskSign_two_mul, maskSign_two_mul_add_one]
    ring
  rw [Finset.sum_congr rfl hz]
  simp

section BitAndLemmas

theorem and_two_mul_left (m b : ℕ) : (2 * m) &&& (2 * b) = 2 * (m &&& b) := by
  apply Nat.eq_of_testBit_eq
  intro i
  cases i with
  | zero =>
    simp [Nat.testBit_and, Nat.testBit_zero, Nat.mul_mod_right]
  | succ j =>
    simp only [Nat.testBit_succ, and_div_two,
      Nat.mul_div_cancel_left _ (by norm_num : 0 < 2)]

theorem and_two_mul_add_one_left (m b : ℕ) : (2 * m + 1) &&& (2 * b) = 2 * (m &&& b) := by
  apply Nat.eq_of_testBit_eq
  intro i
  cases i with
  | zero =>
    simp [Nat.testBit_and, Nat.testBit_zero, Nat.mul_mod_right, Nat.mul_add_mod]
  | succ j =>
    have h1 : (2 * m + 1) / 2 = m := by omega
    simp only [Nat.testBit_succ, and_div_two, h1,
      Nat.mul_div_cancel_left _ (by norm_num : 0 < 2)]

theorem exists_two_popcount_submask : ∀ {mask : ℕ}, 2 ≤ popcount mask →
    ∃ sm, popcount sm = 2 ∧ mask &&& sm = sm ∧ sm ≤ mask := by
  intro mask
  induction mask using Nat.strong_induction_on with
  | _ mask ih =>
    intro h
    rcases Nat.eq_zero_or_pos mask with rfl | hm
    · rw [popcount_zero] at h; omega
    · have hdm : mask / 2 < mask := Nat.div_lt_self hm (by norm_num)
      have hdecomp := Nat.div_add_mod mask 2
      rcases Nat.mod_two_eq_zero_or_one mask with he | ho
      · have hmeq : mask = 2 * (mask / 2) := by omega
        have hpc : popcount mask = popcount (mask / 2) := by
          have := popcount_two_mul (mask / 2)
          rw [← hmeq] at this
          exact this
        obtain ⟨sm, hsm2, hsmand, hsmle⟩ := ih (mask / 2) hdm (by omega)
        refine ⟨2 * sm, ?_, ?_, ?_⟩
        · rw [popcount_two_mul]; exact hsm2
        · rw [hmeq, and_two_mul_left, hsmand]
        · omega
      · have hmeq : mask = 2 * (mask / 2) + 1 := by omega
        have hpc : popcount mask = popcount (mask / 2) + 1 := by
          have := popcount_two_mul_add_one (mask / 2)
          rw [← hmeq] at this
          exact this
        rcases le_or_lt 2 (popcount (mask / 2)) with hge | hlt
        · obtain ⟨sm, hsm2, hsmand, hsmle⟩ := ih (mask / 2) hdm hge
          refine ⟨2 * sm, ?_, ?_, ?_⟩
          · rw [popcount_two_mul]; exact hsm2
          · rw [hmeq, and_two_mul_add_one_left, hsmand]
          · omega
        · refine ⟨mask, by omega, Nat.and_self mask, le_refl mask⟩

end BitAndLemmas

namespace ExhaustiveVerify

theorem mem_maskList_iff {k mask : ℕ} : mask ∈ maskList k ↔ 1 ≤ mask ∧ mask < 2 ^ k := by
  have hp : 0 < 2 ^ k := Nat.pos_pow_of_pos k (by norm_num)
  simp only [maskList, List.mem_map, List.mem_range]
  constructor
  · rintro ⟨idx, hidx, rfl⟩; omega
  · rintro ⟨h1, h2⟩; exact ⟨mask - 1, by omega, by omega⟩

theorem mem_singletonMasks_iff {k m : ℕ} : m ∈ singletonMasks k ↔ ∃ i, i < k ∧ m = 2 ^ i := by
  simp only [singletonMasks, List.mem_map, List.mem_range]
  constructor
  · rintro ⟨i, hi, rfl⟩; exact ⟨i, hi, rfl⟩
  · rintro ⟨i, hi, rfl⟩; exact ⟨i, hi, rfl⟩

theorem mem_nonSingletonMasks_iff {k m : ℕ} :
    m ∈ nonSingletonMasks k ↔ m ∈ maskList k ∧ m ∉ singletonMasks k := by
  simp [nonSingletonMasks, List.mem_filter]

theorem getD_map_range (f : ℕ → ℕ) {N i : ℕ} (h : i < N) :
    ((List.range N).map f).getD i 0 = f i := by
  rw [List.getD_eq_getElem _ _ (by simpa using h), List.getElem_map, List.getElem_range]

theorem mem_listProd_iff : ∀ {rs : List (List ℕ)} {xs : List ℕ},
    xs ∈ listProd rs ↔
      xs.length = rs.length ∧ ∀ j, (h : j < rs.length) → xs.getD j 0 ∈ rs[j] := by
  intro rs
  induction rs with
  | nil =>
    intro xs
    simp only [listProd, List.mem_singleton, List.length_nil]
    constructor
    · rintro rfl; simp
    · rintro ⟨h, _⟩; exact List.length_eq_zero.mp h
  | cons r rest ih =>
    intro xs
    simp only [listProd, List.mem_flatMap, List.mem_map]
    constructor
    · rintro ⟨x, hx, ys, hys, rfl⟩
      obtain ⟨hlen, hget⟩ := ih.mp hys
      refine ⟨by simp [hlen], ?_⟩
      intro j hj
      cases j with
      | zero => simpa using hx
      | succ j0 =>
        have hj0 : j0 < rest.length := by simpa using hj
        simpa using hget j0 hj0
    · rintro ⟨hlen, hget⟩
      cases xs with
      | nil => simp at hlen
      | cons x ys =>
        refine ⟨x, ?_, ys, ih.mpr ⟨by simpa using hlen, ?_⟩, rfl⟩
        · simpa using hget 0 (by simp)
        · intro j hj
          simpa using hget (j + 1) (by simpa using hj)

theorem foldl_min_le_init (f : ℕ → ℕ) : ∀ (l : List ℕ) (init : ℕ),
    l.foldl (fun acc sm => min acc (f sm)) init ≤ init := by
  intro l
  induction l with
  | nil => intro init; exact le_refl _
  | cons x rest ih =>
    intro init
    calc rest.foldl (fun acc sm => min acc (f sm)) (min init (f x)) ≤ min init (f x) := ih _
    _ ≤ init := min_le_left _ _

theorem foldl_min_le_mem (f : ℕ → ℕ) : ∀ {l : List ℕ} {x : ℕ}, x ∈ l → ∀ (init : ℕ),
    l.foldl (fun acc sm => min acc (f sm)) init ≤ f x := by
  intro l
  induction l with
  | nil => intro x hx; cases hx
  | cons y rest ih =>
    intro x hx init
    rcases List.mem_cons.mp hx with rfl | hx'
    · calc rest.foldl (fun acc sm => min acc (f sm)) (min init (f x)) ≤ min init (f x) :=
        foldl_min_le_init f rest _
      _ ≤ f x := min_le_right _ _
    · exact ih hx' _

theorem le_foldl_min (f : ℕ → ℕ) {v : ℕ} : ∀ {l : List ℕ} {init : ℕ}, v ≤ init →
    (∀ x ∈ l, v ≤ f x) → v ≤ l.foldl (fun acc sm => min acc (f sm)) init := by
  intro l
  induction l with
  | nil => intro init hi _; exact hi
  | cons x rest ih =>
    intro init hi hl
    exact ih (le_min hi (hl x (by simp))) (fun y hy => hl y (by simp [hy]))

theorem findIdx_map_range : ∀ (k : ℕ) (f : ℕ → ℕ), Function.Injective f →
    ∀ (i : ℕ), i < k → ((List.range k).map f).findIdx (· == f i) = i := by
  intro k
  induction k with
  | zero => intro f _ i hi; omega
  | succ m ih =>
    intro f hf i hi
    rw [List.range_succ_eq_map, List.map_cons, List.map_map, List.findIdx_cons]
    cases i with
    | zero => simp
    | succ j =>
      have hne : (f 0 == f (j + 1)) = false := by
        simp only [beq_eq_false_iff_ne, ne_eq]
        intro hc
        exact absurd (hf hc) (by omega)
      rw [hne]
      simp only [cond_false]
      have := ih (f ∘ Nat.succ) (fun a b hab => Nat.succ_injective (hf hab)) j
        (by omega)
      simpa using this

theorem findIdx_singletonMasks {k i : ℕ} (h : i < k) :
    (singletonMasks k).findIdx (· == 2 ^ i) = i := by
  exact findIdx_map_range k (2 ^ ·) (Nat.pow_right_injective (le_refl 2)) i h

theorem baseSizes_getD (k : ℕ) (s : List ℕ) {mask : ℕ} (h : mask ∈ maskList k) :
    (baseSizes k s).getD (mask - 1) 0 =
      if mask ∈ singletonMasks k then
        s.getD ((singletonMasks k).findIdx (· == mask)) 0
      else 0 := by
  obtain ⟨h1, h2⟩ := mem_maskList_iff.mp h
  have hidx : mask - 1 < 2 ^ k - 1 := by omega
  rw [baseSizes, getD_map_range _ hidx]
  have : mask - 1 + 1 = mask := by omega
  rw [this]

theorem candSizes_getD (k : ℕ) (s inner : List ℕ) {mask : ℕ} (h : mask ∈ maskList k) :
    (candSizes k s inner).getD (mask - 1) 0 =
      if mask ∈ singletonMasks k then
        s.getD ((singletonMasks k).findIdx (· == mask)) 0
      else inner.getD ((nonSingletonMasks k).findIdx (· == mask)) 0 := by
  obtain ⟨h1, h2⟩ := mem_maskList_iff.mp h
  have hidx : mask - 1 < 2 ^ k - 1 := by omega
  rw [candSizes, getD_map_range _ hidx]
  have : mask - 1 + 1 = mask := by omega
  rw [this]

theorem candSizes_singleton_getD (k : ℕ) (s inner : List ℕ) {i : ℕ} (h : i < k) :
    (candSizes k s inner).getD (2 ^ i - 1) 0 = s.getD i 0 := by
  have hmem : (2 : ℕ) ^ i ∈ singletonMasks k := mem_singletonMasks_iff.mpr ⟨i, h, rfl⟩
  have hmask : (2 : ℕ) ^ i ∈ maskList k := by
    rw [mem_maskList_iff]
    exact ⟨Nat.one_le_two_pow, Nat.pow_lt_pow_right (by norm_num) h⟩
  rw [candSizes_getD k s inner hmask, if_pos hmem, findIdx_singletonMasks h]

theorem mem_candidates_iff {n : ℤ} {k : ℕ} {ms : Option ℕ} {cand : List ℕ} :
    cand ∈ candidates n k ms ↔
      ∃ s ∈ listProd (List.replicate k (List.range (ms.getD (defaultMaxSize n) + 1))),
        nonIncreasing k s = true ∧
        ∃ inner ∈ listProd (rangesList (ms.getD (defaultMaxSize n)) k (baseSizes k s)),
          cand = candSizes k s inner := by
  simp only [candidates, singletonTuples, List.mem_flatMap, List.mem_filter, List.mem_map]
  constructor
  · rintro ⟨s, ⟨hs1, hs2⟩, inner, hi, rfl⟩
    exact ⟨s, hs1, hs2, inner, hi, rfl⟩
  · rintro ⟨s, hs1, hs2, inner, hi, rfl⟩
    exact ⟨s, ⟨hs1, hs2⟩, inner, hi, rfl⟩

theorem checkConstraints_eq_true_iff {sizes : List ℕ} {k : ℕ} :
    checkConstraints sizes k = true ↔
      ((∀ m1 ∈ maskList k, ∀ m2 ∈ maskList k, m1 ≠ m2 → m1 &&& m2 = m2 →
          sizes.getD (m1 - 1) 0 ≤ sizes.getD (m2 - 1) 0) ∧ regionsOK k sizes) := by
  simp only [checkConstraints, Bool.and_eq_true, List.all_eq_true, regionsOK]
  constructor
  · rintro ⟨hm, hr⟩
    refine ⟨?_, ?_⟩
    · intro m1 h1 m2 h2 hne hsub
      have := hm m1 h1 m2 h2
      rw [if_pos ⟨hne, hsub⟩] at this
      exact of_decide_eq_true this
    · intro K hK
      exact of_decide_eq_true (hr K hK)
  · rintro ⟨hm, hr⟩
    refine ⟨?_, ?_⟩
    · intro m1 h1 m2 h2
      split
      · next hcond => exact decide_eq_true (hm m1 h1 m2 h2 hcond.1 hcond.2)
      · rfl
    · intro K hK
      exact decide_eq_true (hr K hK)

theorem monotoneOK_of_checkConstraints {sizes : List ℕ} {k : ℕ}
    (h : checkConstraints sizes k = true) : monotoneOK k sizes := by
  obtain ⟨hm, _⟩ := checkConstraints_eq_true_iff.mp h
  intro A hA B hB hsub
  rcases eq_or_ne A B with rfl | hne
  · exact le_refl _
  · exact hm A hA B hB hne hsub

end ExhaustiveVerify

namespace ExhaustiveVerify

theorem getD_replicate_zero : ∀ (k i : ℕ), (List.replicate k (0 : ℕ)).getD i 0 = 0 := by
  intro k
  induction k with
  | zero => intro i; rfl
  | succ m ih =>
    intro i
    rw [List.replicate_succ]
    cases i with
    | zero => rfl
    | succ j => exact ih j

theorem getD_map_const_zero {α : Type} (l : List α) : ∀ (i : ℕ),
    (l.map fun _ => (0 : ℕ)).getD i 0 = 0 := by
  induction l with
  | nil => intro i; rfl
  | cons x rest ih =>
    intro i
    cases i with
    | zero => rfl
    | succ j => exact ih j

theorem listProd_all_singleton : ∀ {ls : List (List ℕ)}, (∀ x ∈ ls, x = [0]) →
    listProd ls = [ls.map fun _ => 0] := by
  intro ls
  induction ls with
  | nil => intro _; rfl
  | cons r rest ih =>
    intro h
    have hr : r = [0] := h r (by simp)
    have hrest := ih (fun x hx => h x (by simp [hx]))
    rw [listProd, hr, hrest]
    rfl

theorem nonIncreasing_replicate (k m : ℕ) : nonIncreasing k (List.replicate m 0) = true := by
  rw [nonIncreasing, List.all_eq_true]
  intro i _
  simp [getD_replicate_zero]

theorem singletonTuples_zero (k : ℕ) : singletonTuples 0 k = [List.replicate k 0] := by
  rw [singletonTuples]
  have h1 : listProd (List.replicate k (List.range 1)) = [List.replicate k 0] := by
    have h2 := listProd_all_singleton
      (show ∀ x ∈ List.replicate k (List.range 1), x = [0] by
        intro x hx; rw [List.eq_of_mem_replicate hx]; rfl)
    rw [h2, List.map_replicate]
  rw [h1, List.filter_cons, nonIncreasing_replicate]
  rfl

theorem baseSizes_replicate (k : ℕ) :
    baseSizes k (List.replicate k 0) = List.replicate (2 ^ k - 1) 0 := by
  rw [List.eq_replicate_iff]
  constructor
  · simp [baseSizes]
  · intro b hb
    rw [baseSizes] at hb
    obtain ⟨idx, _, rfl⟩ := List.mem_map.mp hb
    split
    · exact getD_replicate_zero ..
    · rfl

theorem maxVal_zero (k : ℕ) (sizes0 : List ℕ) (mask : ℕ) : maxVal 0 k sizes0 mask = 0 :=
  Nat.le_zero.mp (foldl_min_le_init _ _ _)

theorem candSizes_all_zero (k : ℕ) {s inner : List ℕ}
    (hs : ∀ i, s.getD i 0 = 0) (hi : ∀ i, inner.getD i 0 = 0) :
    candSizes k s inner = List.replicate (2 ^ k - 1) 0 := by
  rw [List.eq_replicate_iff]
  constructor
  · simp [candSizes]
  · intro b hb
    rw [candSizes] at hb
    obtain ⟨idx, _, rfl⟩ := List.mem_map.mp hb
    split
    · exact hs _
    · exact hi _

theorem candidates_M_zero {n : ℤ} {k : ℕ} {ms : Option ℕ}
    (hM : ms.getD (defaultMaxSize n) = 0) :
    candidates n k ms = [List.replicate (2 ^ k - 1) 0] := by
  simp only [candidates, hM]
  rw [singletonTuples_zero]
  simp only [List.flatMap_cons, List.flatMap_nil, List.append_nil]
  rw [baseSizes_replicate]
  have hranges : ∀ x ∈ rangesList 0 k (List.replicate (2 ^ k - 1) 0), x = [0] := by
    intro x hx
    rw [rangesList] at hx
    obtain ⟨mask, _, rfl⟩ := List.mem_map.mp hx
    rw [maxVal_zero]
    rfl
  rw [listProd_all_singleton hranges, List.map_cons, List.map_nil]
  congr 1
  exact candSizes_all_zero k (fun i => getD_replicate_zero ..)
    (fun i => by rw [rangesList]; exact getD_map_const_zero _ i)

theorem regionSize_replicate (m k K : ℕ) : regionSize (List.replicate m 0) k K = 0 := by
  rw [regionSize]
  apply List.sum_eq_zero
  intro x hx
  obtain ⟨J, _, rfl⟩ := List.mem_map.mp hx
  rw [getD_replicate_zero]
  simp

theorem checkConstraints_replicate (m k : ℕ) :
    checkConstraints (List.replicate m 0) k = true := by
  rw [checkConstraints_eq_true_iff]
  constructor
  · intro m1 _ m2 _ _ _
    rw [getD_replicate_zero, getD_replicate_zero]
  · intro K _
    rw [regionSize_replicate]

theorem computeUnionSize_replicate {k : ℕ} (hk : 1 ≤ k) :
    computeUnionSize (List.replicate (2 ^ k - 1) 0) k = 1 := by
  rw [computeUnionSize]
  have hcong : ((maskList k).map fun mask =>
      maskSign mask * 2 ^ ((List.replicate (2 ^ k - 1) 0).getD (mask - 1) 0))
      = (maskList k).map (fun mask => maskSign mask) := by
    apply List.map_congr_left
    intro mask _
    rw [getD_replicate_zero]
    simp
  rw [hcong, maskList_map_sum, signSum k hk]

theorem defaultMaxSize_nonpos {n : ℤ} (hn : n ≤ 0) : defaultMaxSize n = 0 := by
  rw [defaultMaxSize, if_neg (by omega)]

end ExhaustiveVerify

/-- C2 counterexample: the call with `n = 0` and `k = 0` is not rejected: the
engine enumerates one candidate vector and even reports feasible (with the
empty size vector), contradicting the claimed immediate infeasible verdict
with no enumeration. -/
theorem degenerate_call_not_rejected :
    ExhaustiveVerify.exhaustiveSearch 0 0 none = some [] ∧
    ExhaustiveVerify.countExamined 0 0 none = 1 := by
  constructor <;> rfl

/-- C2 (amended): a call with `n ≤ 0` or `k = 0` is not rejected before the
enumeration — the search always runs.  For `n ≤ 0` and `k ≥ 1` with the
ceiling left to default, `max_size` becomes `0`, exactly one candidate (the
all-zero vector) is examined, and the verdict is infeasible.  For `k = 0` the
engine examines exactly one candidate (the empty size vector) whatever the
ceiling, and the verdict is feasible exactly when `n = 0`.  With an explicit
ceiling the engine instead enumerates the whole bounded lattice:
`exhaustive_search(-1, 1, 5)` examines `6` candidates before reporting
infeasible. -/
theorem degenerate_inputs_enumerate_once :
    (∀ n : ℤ, n ≤ 0 → ∀ k : ℕ, 1 ≤ k →
      ExhaustiveVerify.exhaustiveSearch n k none = none ∧
      ExhaustiveVerify.countExamined n k none = 1) ∧
    (∀ (n : ℤ) (ms : Option ℕ),
      ExhaustiveVerify.exhaustiveSearch n 0 ms = (if n = 0 then some [] else none) ∧
      ExhaustiveVerify.countExamined n 0 ms = 1) ∧
    ExhaustiveVerify.exhaustiveSearch (-1) 1 (some 5) = none ∧
    ExhaustiveVerify.countExamined (-1) 1 (some 5) = 6 := by
  open ExhaustiveVerify in
  have hM : ∀ {n : ℤ}, n ≤ 0 → (none : Option ℕ).getD (defaultMaxSize n) = 0 := by
    intro n hn
    rw [Option.getD_none, defaultMaxSize_nonpos hn]
  refine ⟨?_, ?_, by decide, by decide⟩
  · intro n hn k hk
    have hc : ExhaustiveVerify.candidates n k none = [List.replicate (2 ^ k - 1) 0] :=
      ExhaustiveVerify.candidates_M_zero (hM hn)
    have hacc : ExhaustiveVerify.accept n k (List.replicate (2 ^ k - 1) 0) = false := by
      rw [ExhaustiveVerify.accept, ExhaustiveVerify.checkConstraints_replicate,
        ExhaustiveVerify.computeUnionSize_replicate hk]
      simp only [Bool.true_and, beq_eq_false_iff_ne, ne_eq]
      omega
    constructor
    · rw [ExhaustiveVerify.exhaustiveSearch, hc, List.find?_cons, hacc]
      rfl
    · rw [ExhaustiveVerify.countExamined, hc]
      rw [List.findIdx?_cons, hacc]
      simp
  · intro n ms
    have hc : ExhaustiveVerify.candidates n 0 ms = [[]] := rfl
    have hacc : ExhaustiveVerify.accept n 0 [] = ((0 : ℤ) == n) := rfl
    constructor
    · rw [ExhaustiveVerify.exhaustiveSearch, hc, List.find?_cons, hacc]
      rcases eq_or_ne n 0 with rfl | hne
      · rfl
      · rw [if_neg hne]
        have h0 : ((0 : ℤ) == n) = false := beq_eq_false_iff_ne.mpr (Ne.symm hne)
        rw [h0]
        rfl
    · rw [ExhaustiveVerify.countExamined, hc, List.findIdx?_cons, hacc]
      rcases eq_or_ne n 0 with rfl | hne
      · rfl
      · have h0 : ((0 : ℤ) == n) = false := beq_eq_false_iff_ne.mpr (Ne.symm hne)
        rw [h0]
        simp

/-- Closed witness for the amended C2: the default-ceiling branch at the
concrete degenerate input `n = -1`, `k = 1`, and the `k = 0` branch at
`n = 1` with the explicit ceiling `7`. -/
theorem degenerate_inputs_enumerate_once_witness :
    (ExhaustiveVerify.exhaustiveSearch (-1) 1 none = none ∧
      ExhaustiveVerify.countExamined (-1) 1 none = 1) ∧
    ExhaustiveVerify.exhaustiveSearch 1 0 (some 7) = none ∧
    ExhaustiveVerify.countExamined 1 0 (some 7) = 1 :=
  ⟨degenerate_inputs_enumerate_once.1 (-1) (by norm_num) 1 (le_refl 1),
    by simpa using (degenerate_inputs_enumerate_once.2.1 1 (some 7)).1,
    (degenerate_inputs_enumerate_once.2.1 1 (some 7)).2⟩

/-- C4: any size vector returned as feasible by `exhaustive_search`
independently satisfies all four invariants of spec section 3: monotonicity
on superset pairs, Möbius region non-negativity, non-increasing singleton
sizes, and the target equation with value `n`. -/
theorem feasible_witness_satisfies_invariants (n : ℤ) (k : ℕ) (ms : Option ℕ) (d : List ℕ)
    (h : ExhaustiveVerify.exhaustiveSearch n k ms = some d) :
    ExhaustiveVerify.monotoneOK k d ∧ ExhaustiveVerify.regionsOK k d ∧
    ExhaustiveVerify.singlesNonInc k d ∧ ExhaustiveVerify.computeUnionSize d k = n := by
  have hmem := List.mem_of_find?_eq_some h
  have hacc := List.find?_some h
  rw [ExhaustiveVerify.accept, Bool.and_eq_true] at hacc
  obtain ⟨hcc, htt⟩ := hacc
  have htgt : ExhaustiveVerify.computeUnionSize d k = n := beq_iff_eq.mp htt
  refine ⟨ExhaustiveVerify.monotoneOK_of_checkConstraints hcc,
    (ExhaustiveVerify.checkConstraints_eq_true_iff.mp hcc).2, ?_, htgt⟩
  obtain ⟨s, hs, hinc, inner, hin, rfl⟩ := ExhaustiveVerify.mem_candidates_iff.mp hmem
  intro i hi
  have hik : i < k - 1 := List.mem_range.mp hi
  rw [ExhaustiveVerify.candSizes_singleton_getD k s inner (show i + 1 < k by omega),
    ExhaustiveVerify.candSizes_singleton_getD k s inner (show i < k by omega)]
  rw [ExhaustiveVerify.nonIncreasing, List.all_eq_true] at hinc
  exact of_decide_eq_true (hinc i (List.mem_range.mpr hik))

/-- Closed witness for C4 at the concrete feasible instance `n = 2`, `k = 3`,
ceiling `1`, whose first witness vector is `[1, 0, 0, 0, 0, 0, 0]`. -/
theorem feasible_witness_satisfies_invariants_witness :
    ExhaustiveVerify.exhaustiveSearch 2 3 (some 1) = some [1, 0, 0, 0, 0, 0, 0] ∧
    (ExhaustiveVerify.monotoneOK 3 [1, 0, 0, 0, 0, 0, 0] ∧
     ExhaustiveVerify.regionsOK 3 [1, 0, 0, 0, 0, 0, 0] ∧
     ExhaustiveVerify.singlesNonInc 3 [1, 0, 0, 0, 0, 0, 0] ∧
     ExhaustiveVerify.computeUnionSize [1, 0, 0, 0, 0, 0, 0] 3 = 2) :=
  ⟨by decide, feasible_witness_satisfies_invariants 2 3 (some 1) _ (by decide)⟩

/-- C5: for `k ≥ 3`, every candidate vector examined in the inner enumeration
(and in particular any witness reported feasible) assigns size `0` to every
mask of popcount at least `3`, because each enumeration range is bounded by a
still-zero non-singleton submask entry of the pre-inner-loop `sizes` array. -/
theorem high_popcount_masks_forced_zero (n : ℤ) (k : ℕ) (ms : Option ℕ) (hk : 3 ≤ k) :
    (∀ cand ∈ ExhaustiveVerify.candidates n k ms, ∀ mask ∈ maskList k,
      3 ≤ popcount mask → cand.getD (mask - 1) 0 = 0) ∧
    (∀ d, ExhaustiveVerify.exhaustiveSearch n k ms = some d → ∀ mask ∈ maskList k,
      3 ≤ popcount mask → d.getD (mask - 1) 0 = 0) := by
  open ExhaustiveVerify in
  have hmain : ∀ cand ∈ ExhaustiveVerify.candidates n k ms, ∀ mask ∈ maskList k,
      3 ≤ popcount mask → cand.getD (mask - 1) 0 = 0 := by
    intro cand hcand mask hmask hpc
    obtain ⟨s, hs, _, inner, hin, rfl⟩ := mem_candidates_iff.mp hcand
    have hnotsing : mask ∉ singletonMasks k := by
      intro hmem
      obtain ⟨i, _, rfl⟩ := mem_singletonMasks_iff.mp hmem
      rw [popcount_two_pow] at hpc
      omega
    rw [candSizes_getD k s inner hmask, if_neg hnotsing]
    have hmemL : mask ∈ nonSingletonMasks k :=
      mem_nonSingletonMasks_iff.mpr ⟨hmask, hnotsing⟩
    have hjlt : (nonSingletonMasks k).findIdx (· == mask) < (nonSingletonMasks k).length :=
      List.findIdx_lt_length_of_exists ⟨mask, hmemL, beq_self_eq_true mask⟩
    have hval : (nonSingletonMasks k)[(nonSingletonMasks k).findIdx (· == mask)]
        = mask := by
      have hp := @List.findIdx_getElem _ (· == mask) (nonSingletonMasks k) hjlt
      exact eq_of_beq hp
    obtain ⟨hlen, hget⟩ := mem_listProd_iff.mp hin
    have hjlt2 : (nonSingletonMasks k).findIdx (· == mask)
        < (rangesList (ms.getD (defaultMaxSize n)) k (baseSizes k s)).length := by
      simpa [rangesList] using hjlt
    have hmem2 := hget _ hjlt2
    have hrg : (rangesList (ms.getD (defaultMaxSize n)) k
          (baseSizes k s))[(nonSingletonMasks k).findIdx (· == mask)]
        = List.range (maxVal (ms.getD (defaultMaxSize n)) k (baseSizes k s) mask + 1) := by
      simp only [rangesList]
      rw [List.getElem_map, hval]
    rw [hrg] at hmem2
    have hmv : maxVal (ms.getD (defaultMaxSize n)) k (baseSizes k s) mask = 0 := by
      obtain ⟨sm, hsm2, hsmand, hsmle⟩ :=
        exists_two_popcount_submask (show 2 ≤ popcount mask by omega)
      have hsmne : sm ≠ mask := by
        intro hEq
        rw [← hEq, hsm2] at hpc
        omega
      have hsm0 : sm ≠ 0 := by
        intro hEq
        rw [hEq, popcount_zero] at hsm2
        omega
      have hsmlist : sm ∈ maskList k :=
        mem_maskList_iff.mpr ⟨by omega,
          lt_of_le_of_lt hsmle (mem_maskList_iff.mp hmask).2⟩
      have hsmfilter : sm ∈ (maskList k).filter
          (fun sm => mask &&& sm == sm && sm != mask) := by
        rw [List.mem_filter]
        refine ⟨hsmlist, ?_⟩
        simp [hsmand, hsmne]
      have hbase : (baseSizes k s).getD (sm - 1) 0 = 0 := by
        rw [baseSizes_getD k s hsmlist, if_neg ?hns]
        case hns =>
          intro hmem
          obtain ⟨i, _, rfl⟩ := mem_singletonMasks_iff.mp hmem
          rw [popcount_two_pow] at hsm2
          omega
      have hle := foldl_min_le_mem (fun sm => (baseSizes k s).getD (sm - 1) 0) hsmfilter
        (ms.getD (defaultMaxSize n))
      rw [hbase] at hle
      exact Nat.le_zero.mp hle
    rw [hmv] at hmem2
    have := List.mem_range.mp hmem2
    omega
  exact ⟨hmain, fun d hd => hmain d (List.mem_of_find?_eq_some hd)⟩

/-- Closed witness for C5 at the concrete instance `n = 2`, `k = 3`,
ceiling `1`. -/
theorem high_popcount_masks_forced_zero_witness :
    3 ≤ 3 ∧
    ((∀ cand ∈ ExhaustiveVerify.candidates 2 3 (some 1), ∀ mask ∈ maskList 3,
        3 ≤ popcount mask → cand.getD (mask - 1) 0 = 0) ∧
     (∀ d, ExhaustiveVerify.exhaustiveSearch 2 3 (some 1) = some d → ∀ mask ∈ maskList 3,
        3 ≤ popcount mask → d.getD (mask - 1) 0 = 0)) :=
  ⟨le_refl 3, high_popcount_masks_forced_zero 2 3 (some 1) (le_refl 3)⟩

namespace ExhaustiveVerify

theorem searchLoop_fst (clock : ℕ → ℕ) (n : ℤ) (k : ℕ) :
    ∀ (l : List (List ℕ)) (count lastReport : ℕ) (log : List ℕ),
      (searchLoop clock n k l count lastReport log).1 = l.find? (accept n k) := by
  intro l
  induction l with
  | nil => intro count lastReport log; rfl
  | cons c rest ih =>
    intro count lastReport log
    rw [searchLoop, List.find?_cons]
    cases hacc : accept n k c
    · simp only [hacc, Bool.false_eq_true, if_false]
      exact ih ..
    · simp only [hacc, if_true]

end ExhaustiveVerify

/-- C10: the engine is deterministic and the wall-clock progress reporting
cannot influence the verdict or the witness: the feasibility result of the
clock-instrumented loop is the same for every pair of clock streams and
equals the pure search result (the candidate order is the same fixed
`candidates` list by construction). -/
theorem search_result_clock_independent (clockA clockB : ℕ → ℕ) (n : ℤ) (k : ℕ)
    (ms : Option ℕ) :
    (ExhaustiveVerify.exhaustiveSearchTimed clockA n k ms).1 =
      (ExhaustiveVerify.exhaustiveSearchTimed clockB n k ms).1 ∧
    (ExhaustiveVerify.exhaustiveSearchTimed clockA n k ms).1 =
      ExhaustiveVerify.exhaustiveSearch n k ms := by
  have hA := ExhaustiveVerify.searchLoop_fst clockA n k
    (ExhaustiveVerify.candidates n k ms) 0 (clockA 0) []
  have hB := ExhaustiveVerify.searchLoop_fst clockB n k
    (ExhaustiveVerify.candidates n k ms) 0 (clockB 0) []
  constructor
  · rw [ExhaustiveVerify.exhaustiveSearchTimed, ExhaustiveVerify.exhaustiveSearchTimed,
      hA, hB]
  · rw [ExhaustiveVerify.exhaustiveSearchTimed, hA]
    rfl

/-- C6 counterexample: the search for `n = 3` with `k = 1` is infeasible, yet
the exhaustive CLI exits with status `0` because `main` discards the result of
`exhaustive_search`; the claim that an infeasible search exits nonzero fails. -/
theorem infeasible_search_exits_zero :
    ExhaustiveVerify.exhaustiveSearch 3 1 none = none ∧
    ExhaustiveVerify.mainExitCode true 3 1 none = 0 := by
  constructor <;> rfl

/-- C6 (amended): the ADF verifier CLI exits `0` exactly on a successful
verification, and exits `1` on a missing file, a malformed artifact, or a
failed verification; the exhaustive CLI exits `1` only when its arguments are
malformed and otherwise exits `0` regardless of the feasibility verdict. -/
theorem exit_codes_amended :
    (∀ (n : ℤ) (k : ℕ) (ms : Option ℕ), ExhaustiveVerify.mainExitCode true n k ms = 0) ∧
    (∀ (n : ℤ) (k : ℕ) (ms : Option ℕ), ExhaustiveVerify.mainExitCode false n k ms = 1) ∧
    (∀ lines, AdfVerifier.mainExitCode false lines = 1) ∧
    (∀ lines, AdfVerifier.mainExitCode true lines = 0 ↔
      ∃ n k sets, AdfVerifier.parseADF lines = .ok (n, k, sets) ∧
        (AdfVerifier.verifyDecomposition n k sets).1 = true) := by
  refine ⟨fun n k ms => rfl, fun n k ms => rfl, fun lines => rfl, fun lines => ?_⟩
  rw [AdfVerifier.mainExitCode, if_neg (by simp)]
  cases hp : AdfVerifier.parseADF lines with
  | error e =>
    constructor
    · intro h
      exact absurd h (by norm_num)
    · rintro ⟨n, k, sets, hok, _⟩
      exact absurd hok (by simp)
  | ok v =>
    obtain ⟨n, k, sets⟩ := v
    show (if (AdfVerifier.verifyDecomposition n k sets).1 = true then (0 : ℕ) else 1) = 0 ↔
      ∃ n' k' sets', Except.ok (n, k, sets) = Except.ok (n', k', sets') ∧
        (AdfVerifier.verifyDecomposition n' k' sets').1 = true
    cases hv : (AdfVerifier.verifyDecomposition n k sets).1
    · rw [if_neg Bool.false_ne_true]
      constructor
      · intro h
        exact absurd h (by norm_num)
      · rintro ⟨n', k', sets', hok, hval⟩
        cases hok
        rw [hv] at hval
        exact absurd hval Bool.false_ne_true
    · rw [if_pos rfl]
      exact ⟨fun _ => ⟨n, k, sets, rfl, hv⟩, fun _ => rfl⟩

/-- Bridging lemma for a chunked evaluation of the search: if the inner loop
of every singleton tuple rejects all of its candidates, the search returns
`none`. -/
theorem exhaustiveSearch_eq_none_of_all {n : ℤ} {M k : ℕ}
    (h : ∀ s ∈ ExhaustiveVerify.singletonTuples M k,
      ExhaustiveVerify.innerAllFalse n M k s = true) :
    ExhaustiveVerify.exhaustiveSearch n k (some M) = none := by
  have he : ExhaustiveVerify.exhaustiveSearch n k (some M) =
      ((ExhaustiveVerify.singletonTuples M k).flatMap fun s =>
        (ExhaustiveVerify.listProd
          (ExhaustiveVerify.rangesList M k (ExhaustiveVerify.baseSizes k s))).map
          (ExhaustiveVerify.candSizes k s)).find? (ExhaustiveVerify.accept n k) := rfl
  rw [he, List.find?_eq_none]
  intro x hx
  rw [List.mem_flatMap] at hx
  obtain ⟨s, hs, hxs⟩ := hx
  have hall := h s hs
  simp only [ExhaustiveVerify.innerAllFalse, List.all_eq_true] at hall
  have hfx := hall x hxs
  simp only [Bool.not_eq_true'] at hfx
  simp [hfx]

set_option maxRecDepth 10000 in
/-- The singleton tuples enumerated for ceiling `5`, `k = 3`, listed
explicitly. -/
theorem c1_tuples_eq : ExhaustiveVerify.singletonTuples 5 3 =
    [[0, 0, 0], [1, 0, 0], [1, 1, 0], [1, 1, 1], [2, 0, 0], [2, 1, 0], [2, 1, 1], [2, 2, 0], [2, 2, 1], [2, 2, 2], [3, 0, 0], [3, 1, 0], [3, 1, 1], [3, 2, 0], [3, 2, 1], [3, 2, 2], [3, 3, 0], [3, 3, 1], [3, 3, 2], [3, 3, 3], [4, 0, 0], [4, 1, 0], [4, 1, 1], [4, 2, 0], [4, 2, 1], [4, 2, 2], [4, 3, 0], [4, 3, 1], [4, 3, 2], [4, 3, 3], [4, 4, 0], [4, 4, 1], [4, 4, 2], [4, 4, 3], [4, 4, 4], [5, 0, 0], [5, 1, 0], [5, 1, 1], [5, 2, 0], [5, 2, 1], [5, 2, 2], [5, 3, 0], [5, 3, 1], [5, 3, 2], [5, 3, 3], [5, 4, 0], [5, 4, 1], [5, 4, 2], [5, 4, 3], [5, 4, 4], [5, 5, 0], [5, 5, 1], [5, 5, 2], [5, 5, 3], [5, 5, 4], [5, 5, 5]] := by rfl

section C1Chunks

set_option maxRecDepth 100000
set_option maxHeartbeats 1600000

/-- Inner-loop rejection for the singleton tuple `[0, 0, 0]`. -/
theorem c1_t0 : ExhaustiveVerify.innerAllFalse 80 5 3 [0, 0, 0] = true := by decide

/-- Inner-loop rejection for the singleton tuple `[1, 0, 0]`. -/
theorem c1_t1 : ExhaustiveVerify.innerAllFalse 80 5 3 [1, 0, 0] = true := by decide

/-- Inner-loop rejection for the singleton tuple `[1, 1, 0]`. -/
theorem c1_t2 : ExhaustiveVerify.innerAllFalse 80 5 3 [1, 1, 0] = true := by decide

/-- Inner-loop rejection for the singleton tuple `[1, 1, 1]`. -/
theorem c1_t3 : ExhaustiveVerify.innerAllFalse 80 5 3 [1, 1, 1] = true := by decide

/-- Inner-loop rejection for the singleton tuple `[2, 0, 0]`. -/
theorem c1_t4 : ExhaustiveVerify.innerAllFalse 80 5 3 [2, 0, 0] = true := by decide

/-- Inner-loop rejection for the singleton tuple `[2, 1, 0]`. -/
theorem c1_t5 : ExhaustiveVerify.innerAllFalse 80 5 3 [2, 1, 0] = true := by decide

/-- Inner-loop rejection for the singleton tuple `[2, 1, 1]`. -/
theorem c1_t6 : ExhaustiveVerify.innerAllFalse 80 5 3 [2, 1, 1] = true := by decide

/-- Inner-loop rejection for the singleton tuple `[2, 2, 0]`. -/
theorem c1_t7 : ExhaustiveVerify.innerAllFalse 80 5 3 [2, 2, 0] = true := by decide

/-- Inner-loop rejection for the singleton tuple `[2, 2, 1]`. -/
theorem c1_t8 : ExhaustiveVerify.innerAllFalse 80 5 3 [2, 2, 1] = true := by decide

/-- Inner-loop rejection for the singleton tuple `[2, 2, 2]`. -/
theorem c1_t9 : ExhaustiveVerify.innerAllFalse 80 5 3 [2, 2, 2] = true := by decide

/-- Inner-loop rejection for the singleton tuple `[3, 0, 0]`. -/
theorem c1_t10 : ExhaustiveVerify.innerAllFalse 80 5 3 [3, 0, 0] = true := by decide

/-- Inner-loop rejection for the singleton tuple `[3, 1, 0]`. -/
theorem c1_t11 : ExhaustiveVerify.innerAllFalse 80 5 3 [3, 1, 0] = true := by decide

/-- Inner-loop rejection for the singleton tuple `[3, 1, 1]`. -/
theorem c1_t12 : ExhaustiveVerify.innerAllFalse 80 5 3 [3, 1, 1] = true := by decide

/-- Inner-loop rejection for the singleton tuple `[3, 2, 0]`. -/
theorem c1_t13 : ExhaustiveVerify.innerAllFalse 80 5 3 [3, 2, 0] = true := by decide

/-- Inner-loop rejection for the singleton tuple `[3, 2, 1]`. -/
theorem c1_t14 : ExhaustiveVerify.innerAllFalse 80 5 3 [3, 2, 1] = true := by decide

/-- Inner-loop rejection for the singleton tuple `[3, 2, 2]`. -/
theorem c1_t15 : ExhaustiveVerify.innerAllFalse 80 5 3 [3, 2, 2] = true := by decide

/-- Inner-loop rejection for the singleton tuple `[3, 3, 0]`. -/
theorem c1_t16 : ExhaustiveVerify.innerAllFalse 80 5 3 [3, 3, 0] = true := by decide

/-- Inner-loop rejection for the singleton tuple `[3, 3, 1]`. -/
theorem c1_t17 : ExhaustiveVerify.innerAllFalse 80 5 3 [3, 3, 1] = true := by decide

/-- Inner-loop rejection for the singleton tuple `[3, 3, 2]`. -/
theorem c1_t18 : ExhaustiveVerify.innerAllFalse 80 5 3 [3, 3, 2] = true := by decide

/-- Inner-loop rejection for the singleton tuple `[3, 3, 3]`. -/
theorem c1_t19 : ExhaustiveVerify.innerAllFalse 80 5 3 [3, 3, 3] = true := by decide

/-- Inner-loop rejection for the singleton tuple `[4, 0, 0]`. -/
theorem c1_t20 : ExhaustiveVerify.innerAllFalse 80 5 3 [4, 0, 0] = true := by decide

/-- Inner-loop rejection for the singleton tuple `[4, 1, 0]`. -/
theorem c1_t21 : ExhaustiveVerify.innerAllFalse 80 5 3 [4, 1, 0] = true := by decide

/-- Inner-loop rejection for the singleton tuple `[4, 1, 1]`. -/
theorem c1_t22 : ExhaustiveVerify.innerAllFalse 80 5 3 [4, 1, 1] = true := by decide

/-- Inner-loop rejection for the singleton tuple `[4, 2, 0]`. -/
theorem c1_t23 : ExhaustiveVerify.innerAllFalse 80 5 3 [4, 2, 0] = true := by decide

/-- Inner-loop rejection for the singleton tuple `[4, 2, 1]`. -/
theorem c1_t24 : ExhaustiveVerify.innerAllFalse 80 5 3 [4, 2, 1] = true := by decide

/-- Inner-loop rejection for the singleton tuple `[4, 2, 2]`. -/
theorem c1_t25 : ExhaustiveVerify.innerAllFalse 80 5 3 [4, 2, 2] = true := by decide

/-- Inner-loop rejection for the singleton tuple `[4, 3, 0]`. -/
theorem c1_t26 : ExhaustiveVerify.innerAllFalse 80 5 3 [4, 3, 0] = true := by decide

/-- Inner-loop rejection for the singleton tuple `[4, 3, 1]`. -/
theorem c1_t27 : ExhaustiveVerify.innerAllFalse 80 5 3 [4, 3, 1] = true := by decide

/-- Inner-loop rejection for the singleton tuple `[4, 3, 2]`. -/
theorem c1_t28 : ExhaustiveVerify.innerAllFalse 80 5 3 [4, 3, 2] = true := by decide

/-- Inner-loop rejection for the singleton tuple `[4, 3, 3]`. -/
theorem c1_t29 : ExhaustiveVerify.innerAllFalse 80 5 3 [4, 3, 3] = true := by decide

/-- Inner-loop rejection for the singleton tuple `[4, 4, 0]`. -/
theorem c1_t30 : ExhaustiveVerify.innerAllFalse 80 5 3 [4, 4, 0] = true := by decide

/-- Inner-loop rejection for the singleton tuple `[4, 4, 1]`. -/
theorem c1_t31 : ExhaustiveVerify.innerAllFalse 80 5 3 [4, 4, 1] = true := by decide

/-- Inner-loop rejection for the singleton tuple `[4, 4, 2]`. -/
theorem c1_t32 : ExhaustiveVerify.innerAllFalse 80 5 3 [4, 4, 2] = true := by decide

/-- Inner-loop rejection for the singleton tuple `[4, 4, 3]`. -/
theorem c1_t33 : ExhaustiveVerify.innerAllFalse 80 5 3 [4, 4, 3] = true := by decide

/-- Inner-loop rejection for the singleton tuple `[4, 4, 4]`. -/
theorem c1_t34 : ExhaustiveVerify.innerAllFalse 80 5 3 [4, 4, 4] = true := by decide

/-- Inner-loop rejection for the singleton tuple `[5, 0, 0]`. -/
theorem c1_t35 : ExhaustiveVerify.innerAllFalse 80 5 3 [5, 0, 0] = true := by decide

/-- Inner-loop rejection for the singleton tuple `[5, 1, 0]`. -/
theorem c1_t36 : ExhaustiveVerify.innerAllFalse 80 5 3 [5, 1, 0] = true := by decide

/-- Inner-loop rejection for the singleton tuple `[5, 1, 1]`. -/
theorem c1_t37 : ExhaustiveVerify.innerAllFalse 80 5 3 [5, 1, 1] = true := by decide

/-- Inner-loop rejection for the singleton tuple `[5, 2, 0]`. -/
theorem c1_t38 : ExhaustiveVerify.innerAllFalse 80 5 3 [5, 2, 0] = true := by decide

/-- Inner-loop rejection for the singleton tuple `[5, 2, 1]`. -/
theorem c1_t39 : ExhaustiveVerify.innerAllFalse 80 5 3 [5, 2, 1] = true := by decide

/-- Inner-loop rejection for the singleton tuple `[5, 2, 2]`. -/
theorem c1_t40 : ExhaustiveVerify.innerAllFalse 80 5 3 [5, 2, 2] = true := by decide

/-- Inner-loop rejection for the singleton tuple `[5, 3, 0]`. -/
theorem c1_t41 : ExhaustiveVerify.innerAllFalse 80 5 3 [5, 3, 0] = true := by decide

/-- Inner-loop rejection for the singleton tuple `[5, 3, 1]`. -/
theorem c1_t42 : ExhaustiveVerify.innerAllFalse 80 5 3 [5, 3, 1] = true := by decide

/-- Inner-loop rejection for the singleton tuple `[5, 3, 2]`. -/
theorem c1_t43 : ExhaustiveVerify.innerAllFalse 80 5 3 [5, 3, 2] = true := by decide

/-- Inner-loop rejection for the singleton tuple `[5, 3, 3]`. -/
theorem c1_t44 : ExhaustiveVerify.innerAllFalse 80 5 3 [5, 3, 3] = true := by decide

/-- Inner-loop rejection for the singleton tuple `[5, 4, 0]`. -/
theorem c1_t45 : ExhaustiveVerify.innerAllFalse 80 5 3 [5, 4, 0] = true := by decide

/-- Inner-loop rejection for the singleton tuple `[5, 4, 1]`. -/
theorem c1_t46 : ExhaustiveVerify.innerAllFalse 80 5 3 [5, 4, 1] = true := by decide

/-- Inner-loop rejection for the singleton tuple `[5, 4, 2]`. -/
theorem c1_t47 : ExhaustiveVerify.innerAllFalse 80 5 3 [5, 4, 2] = true := by decide

/-- Inner-loop rejection for the singleton tuple `[5, 4, 3]`. -/
theorem c1_t48 : ExhaustiveVerify.innerAllFalse 80 5 3 [5, 4, 3] = true := by decide

/-- Inner-loop rejection for the singleton tuple `[5, 4, 4]`. -/
theorem c1_t49 : ExhaustiveVerify.innerAllFalse 80 5 3 [5, 4, 4] = true := by decide

/-- Inner-loop rejection for the singleton tuple `[5, 5, 0]`. -/
theorem c1_t50 : ExhaustiveVerify.innerAllFalse 80 5 3 [5, 5, 0] = true := by decide

/-- Inner-loop rejection for the singleton tuple `[5, 5, 1]`. -/
theorem c1_t51 : ExhaustiveVerify.innerAllFalse 80 5 3 [5, 5, 1] = true := by decide

/-- Inner-loop rejection for the singleton tuple `[5, 5, 2]`. -/
theorem c1_t52 : ExhaustiveVerify.innerAllFalse 80 5 3 [5, 5, 2] = true := by decide

/-- Inner-loop rejection for the singleton tuple `[5, 5, 3]`. -/
theorem c1_t53 : ExhaustiveVerify.innerAllFalse 80 5 3 [5, 5, 3] = true := by decide

/-- Inner-loop rejection for the singleton tuple `[5, 5, 4]`. -/
theorem c1_t54 : ExhaustiveVerify.innerAllFalse 80 5 3 [5, 5, 4] = true := by decide

/-- Inner-loop rejection for the singleton tuple `[5, 5, 5]`. -/
theorem c1_t55 : ExhaustiveVerify.innerAllFalse 80 5 3 [5, 5, 5] = true := by decide

end C1Chunks

/-- Every singleton tuple's inner loop rejects all candidates for `n = 80`,
ceiling `5`, `k = 3`. -/
theorem c1_all : ∀ s ∈ ExhaustiveVerify.singletonTuples 5 3,
    ExhaustiveVerify.innerAllFalse 80 5 3 s = true := by
  intro s hs
  rw [c1_tuples_eq] at hs
  simp only [List.mem_cons, List.not_mem_nil, or_false] at hs
  rcases hs with rfl|rfl|rfl|rfl|rfl|rfl|rfl|rfl|rfl|rfl|rfl|rfl|rfl|rfl|rfl|rfl|rfl|rfl|rfl|rfl|rfl|rfl|rfl|rfl|rfl|rfl|rfl|rfl|rfl|rfl|rfl|rfl|rfl|rfl|rfl|rfl|rfl|rfl|rfl|rfl|rfl|rfl|rfl|rfl|rfl|rfl|rfl|rfl|rfl|rfl|rfl|rfl|rfl|rfl|rfl|rfl
  exacts [c1_t0, c1_t1, c1_t2, c1_t3, c1_t4, c1_t5, c1_t6, c1_t7, c1_t8, c1_t9, c1_t10, c1_t11, c1_t12, c1_t13, c1_t14, c1_t15, c1_t16, c1_t17, c1_t18, c1_t19, c1_t20, c1_t21, c1_t22, c1_t23, c1_t24, c1_t25, c1_t26, c1_t27, c1_t28, c1_t29, c1_t30, c1_t31, c1_t32, c1_t33, c1_t34, c1_t35, c1_t36, c1_t37, c1_t38, c1_t39, c1_t40, c1_t41, c1_t42, c1_t43, c1_t44, c1_t45, c1_t46, c1_t47, c1_t48, c1_t49, c1_t50, c1_t51, c1_t52, c1_t53, c1_t54, c1_t55]

/-- C1 counterexample: for `n = 80`, `k = 3` and explicit ceiling `5` the
engine reports infeasible, yet the assignment `d = [5, 5, 3, 5, 3, 1, 1]`
(masks `1..7`) has every size in `[0, 5]` and satisfies all four invariants
with target `80`; the claimed completeness over the bounded lattice fails
because the engine never enumerates a nonzero size for the full mask `7`. -/
theorem search_incomplete_counterexample :
    ExhaustiveVerify.exhaustiveSearch 80 3 (some 5) = none ∧
    ([5, 5, 3, 5, 3, 1, 1] : List ℕ).length = 2 ^ 3 - 1 ∧
    (∀ x ∈ ([5, 5, 3, 5, 3, 1, 1] : List ℕ), x ≤ 5) ∧
    ExhaustiveVerify.monotoneOK 3 [5, 5, 3, 5, 3, 1, 1] ∧
    ExhaustiveVerify.regionsOK 3 [5, 5, 3, 5, 3, 1, 1] ∧
    ExhaustiveVerify.singlesNonInc 3 [5, 5, 3, 5, 3, 1, 1] ∧
    ExhaustiveVerify.computeUnionSize [5, 5, 3, 5, 3, 1, 1] 3 = 80 := by
  refine ⟨exhaustiveSearch_eq_none_of_all c1_all, rfl, by decide, by decide, by decide,
    by decide, by decide⟩

/-- C1 (amended): the engine is complete relative to the sublattice it
actually explores: if a size assignment `d` within the ceiling satisfies all
four invariants with target `n` and moreover assigns `0` to every mask of
popcount at least `3`, then the search reports feasible. -/
theorem search_complete_on_explored_sublattice (n : ℤ) (k : ℕ) (ms : Option ℕ)
    (d : List ℕ)
    (hlen : d.length = 2 ^ k - 1)
    (hbound : ∀ x ∈ d, x ≤ ms.getD (ExhaustiveVerify.defaultMaxSize n))
    (hmono : ExhaustiveVerify.monotoneOK k d)
    (hreg : ExhaustiveVerify.regionsOK k d)
    (hsing : ExhaustiveVerify.singlesNonInc k d)
    (htarget : ExhaustiveVerify.computeUnionSize d k = n)
    (hhigh : ∀ mask ∈ maskList k, 3 ≤ popcount mask → d.getD (mask - 1) 0 = 0) :
    ∃ w, ExhaustiveVerify.exhaustiveSearch n k ms = some w := by
  open ExhaustiveVerify in
  set C := ms.getD (ExhaustiveVerify.defaultMaxSize n) with hC
  have hboundD : ∀ mask ∈ maskList k, d.getD (mask - 1) 0 ≤ C := by
    intro mask hmask
    obtain ⟨h1, h2⟩ := mem_maskList_iff.mp hmask
    have hidx : mask - 1 < d.length := by omega
    rw [List.getD_eq_getElem d 0 hidx]
    exact hbound _ (List.getElem_mem hidx)
  have hpow_mem : ∀ {i : ℕ}, i < k → (2 : ℕ) ^ i ∈ maskList k := by
    intro i hi
    exact mem_maskList_iff.mpr
      ⟨Nat.one_le_two_pow, Nat.pow_lt_pow_right (by norm_num) hi⟩
  set s := (List.range k).map (fun i => d.getD (2 ^ i - 1) 0) with hs
  have hs_getD : ∀ {i : ℕ}, i < k → s.getD i 0 = d.getD (2 ^ i - 1) 0 := by
    intro i hi
    exact getD_map_range _ hi
  have hs_mem : s ∈ listProd (List.replicate k (List.range (C + 1))) := by
    apply mem_listProd_iff.mpr
    constructor
    · simp [hs]
    · intro j hj
      have hjk : j < k := by simpa using hj
      have : (List.replicate k (List.range (C + 1)))[j] = List.range (C + 1) :=
        List.getElem_replicate ..
      rw [this, List.mem_range, hs_getD hjk]
      have := hboundD _ (hpow_mem hjk)
      omega
  have hs_inc : nonIncreasing k s = true := by
    rw [nonIncreasing, List.all_eq_true]
    intro i hi
    have hik : i < k - 1 := List.mem_range.mp hi
    apply decide_eq_true
    rw [hs_getD (show i + 1 < k by omega), hs_getD (show i < k by omega)]
    exact hsing i hi
  set inner := (nonSingletonMasks k).map (fun m => d.getD (m - 1) 0) with hinner
  have hmask_of_mem : ∀ {m : ℕ}, m ∈ nonSingletonMasks k → m ∈ maskList k := by
    intro m hm
    exact (mem_nonSingletonMasks_iff.mp hm).1
  have hpc_two : ∀ {m : ℕ}, m ∈ nonSingletonMasks k → 2 ≤ popcount m := by
    intro m hm
    obtain ⟨hml, hns⟩ := mem_nonSingletonMasks_iff.mp hm
    obtain ⟨h1, h2⟩ := mem_maskList_iff.mp hml
    have hpc1 : popcount m ≠ 0 := by
      intro h0
      have := popcount_eq_zero_iff.mp h0
      omega
    have hpc2 : popcount m ≠ 1 := by
      intro h1'
      obtain ⟨i, rfl⟩ := exists_pow_of_popcount_one h1'
      exact hns (mem_singletonMasks_iff.mpr
        ⟨i, (Nat.pow_lt_pow_iff_right (by norm_num)).mp h2, rfl⟩)
    omega
  have hinner_mem : inner ∈ listProd (rangesList C k (baseSizes k s)) := by
    apply mem_listProd_iff.mpr
    constructor
    · simp [hinner, rangesList]
    · intro j hj
      have hjL : j < (nonSingletonMasks k).length := by simpa [rangesList] using hj
      have hrg : (rangesList C k (baseSizes k s))[j]
          = List.range (maxVal C k (baseSizes k s) ((nonSingletonMasks k)[j]) + 1) := by
        simp only [rangesList]
        rw [List.getElem_map]
      set m := (nonSingletonMasks k)[j] with hm
      have hmmem : m ∈ nonSingletonMasks k := by
        rw [hm]; exact List.getElem_mem hjL
      have hinner_getD : inner.getD j 0 = d.getD (m - 1) 0 := by
        rw [hinner, List.getD_eq_getElem _ _ (by simpa using hjL), List.getElem_map]
      rw [hrg, List.mem_range, hinner_getD]
      have hle : d.getD (m - 1) 0 ≤ maxVal C k (baseSizes k s) m := by
        apply le_foldl_min
        · exact hboundD _ (hmask_of_mem hmmem)
        · intro sm hsm
          rw [List.mem_filter] at hsm
          obtain ⟨hsml, hcond⟩ := hsm
          rw [Bool.and_eq_true, beq_iff_eq, bne_iff_ne] at hcond
          obtain ⟨hsub, hne⟩ := hcond
          rw [baseSizes_getD k s hsml]
          split
          · next hsing' =>
            obtain ⟨i, hik, rfl⟩ := mem_singletonMasks_iff.mp hsing'
            rw [findIdx_singletonMasks hik, hs_getD hik]
            exact hmono m (hmask_of_mem hmmem) _ hsml hsub
          · next hnsing' =>
            have hsm2 : 2 ≤ popcount sm :=
              hpc_two (mem_nonSingletonMasks_iff.mpr ⟨hsml, hnsing'⟩)
            have hlt : popcount sm < popcount m :=
              popcount_lt_of_submask_ne hsub hne
            have h3 : 3 ≤ popcount m := by omega
            rw [hhigh m (hmask_of_mem hmmem) h3]
      omega
  have hcand_eq : candSizes k s inner = d := by
    apply List.ext_getElem
    · simp [candSizes, hlen]
    · intro idx h1 h2
      have hmask : idx + 1 ∈ maskList k := by
        apply mem_maskList_iff.mpr
        have : idx < 2 ^ k - 1 := by simpa [candSizes] using h1
        omega
      have hgetD : (candSizes k s inner).getD idx 0 = d.getD idx 0 := by
        have := candSizes_getD k s inner hmask
        simp only [Nat.add_sub_cancel] at this
        rw [this]
        split
        · next hsing' =>
          obtain ⟨i, hik, hpow⟩ := mem_singletonMasks_iff.mp hsing'
          rw [hpow, findIdx_singletonMasks hik, hs_getD hik]
          congr 1
          omega
        · next hnsing' =>
          have hmemL : idx + 1 ∈ nonSingletonMasks k :=
            mem_nonSingletonMasks_iff.mpr ⟨hmask, hnsing'⟩
          have hjlt : (nonSingletonMasks k).findIdx (· == idx + 1)
              < (nonSingletonMasks k).length :=
            List.findIdx_lt_length_of_exists ⟨idx + 1, hmemL, beq_self_eq_true _⟩
          have hval : (nonSingletonMasks k)[(nonSingletonMasks k).findIdx
              (· == idx + 1)] = idx + 1 :=
            eq_of_beq (@List.findIdx_getElem _ (· == idx + 1) (nonSingletonMasks k) hjlt)
          rw [hinner, List.getD_eq_getElem _ _ (by simpa using hjlt), List.getElem_map,
            hval]
          congr 1
      rw [← List.getD_eq_getElem _ _ h1, ← List.getD_eq_getElem _ _ h2, hgetD]
  have haccept : ExhaustiveVerify.accept n k d = true := by
    rw [ExhaustiveVerify.accept, Bool.and_eq_true]
    constructor
    · apply checkConstraints_eq_true_iff.mpr
      exact ⟨fun m1 hm1 m2 hm2 _ hsub => hmono m1 hm1 m2 hm2 hsub, hreg⟩
    · exact beq_iff_eq.mpr htarget
  have hd_mem : d ∈ ExhaustiveVerify.candidates n k ms := by
    apply mem_candidates_iff.mpr
    exact ⟨s, hs_mem, hs_inc, inner, hinner_mem, hcand_eq.symm⟩
  have hsome : (ExhaustiveVerify.exhaustiveSearch n k ms).isSome := by
    rw [ExhaustiveVerify.exhaustiveSearch]
    exact List.find?_isSome.mpr ⟨d, hd_mem, haccept⟩
  exact Option.isSome_iff_exists.mp hsome

/-- Closed witness for the amended C1 at the concrete instance `n = 2`,
`k = 3`, ceiling `1`, with the valid low-support assignment
`[1, 0, 0, 0, 0, 0, 0]`. -/
theorem search_complete_on_explored_sublattice_witness :
    (([1, 0, 0, 0, 0, 0, 0] : List ℕ).length = 2 ^ 3 - 1 ∧
     (∀ x ∈ ([1, 0, 0, 0, 0, 0, 0] : List ℕ),
        x ≤ (some 1 : Option ℕ).getD (ExhaustiveVerify.defaultMaxSize 2)) ∧
     ExhaustiveVerify.monotoneOK 3 [1, 0, 0, 0, 0, 0, 0] ∧
     ExhaustiveVerify.regionsOK 3 [1, 0, 0, 0, 0, 0, 0] ∧
     ExhaustiveVerify.singlesNonInc 3 [1, 0, 0, 0, 0, 0, 0] ∧
     ExhaustiveVerify.computeUnionSize [1, 0, 0, 0, 0, 0, 0] 3 = 2 ∧
     (∀ mask ∈ maskList 3, 3 ≤ popcount mask →
        ([1, 0, 0, 0, 0, 0, 0] : List ℕ).getD (mask - 1) 0 = 0)) ∧
    ∃ w, ExhaustiveVerify.exhaustiveSearch 2 3 (some 1) = some w :=
  ⟨⟨rfl, by decide, by decide, by decide, by decide, by decide, by decide⟩,
    search_complete_on_explored_sublattice 2 3 (some 1) [1, 0, 0, 0, 0, 0, 0]
      rfl (by decide) (by decide) (by decide) (by decide) (by decide) (by decide)⟩

/-- C9: the verifier's verdict is success exactly when the computed union
size equals the declared `n`, and the computed union size is returned
alongside the verdict in both cases. -/
theorem verdict_iff_union_matches (n kDecl : ℤ) (sets : List (Finset ℤ)) :
    ((AdfVerifier.verifyDecomposition n kDecl sets).1 = true ↔
      AdfVerifier.computeUnionSize sets = n) ∧
    (AdfVerifier.verifyDecomposition n kDecl sets).2 = AdfVerifier.computeUnionSize sets :=
  ⟨beq_iff_eq, rfl⟩

namespace AdfVerifier

theorem interOpt_zero : ∀ (sets : List (Finset ℤ)) (acc : Option (Finset ℤ)),
    interOpt sets 0 acc = acc := by
  intro sets
  induction sets with
  | nil => intro acc; rfl
  | cons S rest ih => intro acc; simpa [interOpt] using ih acc

theorem interOpt_cons_even (S0 : Finset ℤ) (rest : List (Finset ℤ)) (m : ℕ)
    (acc : Option (Finset ℤ)) : interOpt (S0 :: rest) (2 * m) acc = interOpt rest m acc := by
  simp [interOpt, Nat.mul_mod_right, Nat.mul_div_cancel_left _ (by norm_num : 0 < 2)]

theorem interOpt_cons_odd (S0 : Finset ℤ) (rest : List (Finset ℤ)) (m : ℕ)
    (acc : Option (Finset ℤ)) :
    interOpt (S0 :: rest) (2 * m + 1) acc =
      interOpt rest m (some (match acc with | none => S0 | some t => t ∩ S0)) := by
  have h1 : (2 * m + 1) / 2 = m := by omega
  have h2 : (2 * m + 1) % 2 = 1 := by omega
  simp [interOpt, h1, h2]

theorem interOpt_some_acc : ∀ (L : List (Finset ℤ)) (mask : ℕ) (A : Finset ℤ),
    interOpt L mask (some A) =
      some (match interOpt L mask none with
            | none => A
            | some t => A ∩ t) := by
  intro L
  induction L with
  | nil => intro mask A; rfl
  | cons S rest ih =>
    intro mask A
    rcases Nat.mod_two_eq_zero_or_one mask with he | ho
    · have hmeq : mask = 2 * (mask / 2) := by omega
      rw [hmeq, interOpt_cons_even, interOpt_cons_even, ih]
    · have hmeq : mask = 2 * (mask / 2) + 1 := by omega
      rw [hmeq, interOpt_cons_odd, interOpt_cons_odd, ih, ih]
      cases interOpt rest (mask / 2) none with
      | none => rfl
      | some t =>
        simp only []
        rw [Finset.inter_assoc]

theorem interOpt_map_inter (A : Finset ℤ) : ∀ (L : List (Finset ℤ)) (mask : ℕ)
    (acc : Option (Finset ℤ)),
    interOpt (L.map fun S => A ∩ S) mask (Option.map (fun t => A ∩ t) acc) =
      Option.map (fun t => A ∩ t) (interOpt L mask acc) := by
  intro L
  induction L with
  | nil => intro mask acc; rfl
  | cons S rest ih =>
    intro mask acc
    rcases Nat.mod_two_eq_zero_or_one mask with he | ho
    · have hmeq : mask = 2 * (mask / 2) := by omega
      rw [hmeq, List.map_cons, interOpt_cons_even, interOpt_cons_even, ih]
    · have hmeq : mask = 2 * (mask / 2) + 1 := by omega
      rw [hmeq, List.map_cons, interOpt_cons_odd, interOpt_cons_odd]
      cases acc with
      | none =>
        show interOpt (List.map (fun S => A ∩ S) rest) (mask / 2) (some (A ∩ S))
            = Option.map (fun t => A ∩ t) (interOpt rest (mask / 2) (some S))
        have h2 : (some (A ∩ S) : Option (Finset ℤ))
            = Option.map (fun t => A ∩ t) (some S) := rfl
        rw [h2, ih]
      | some t =>
        show interOpt (List.map (fun S => A ∩ S) rest) (mask / 2) (some (A ∩ t ∩ (A ∩ S)))
            = Option.map (fun t => A ∩ t) (interOpt rest (mask / 2) (some (t ∩ S)))
        have hin : A ∩ t ∩ (A ∩ S) = A ∩ (t ∩ S) :=
          (Finset.inter_inter_distrib_left A t S).symm
        rw [hin]
        have h2 : (some (A ∩ (t ∩ S)) : Option (Finset ℤ))
            = Option.map (fun t => A ∩ t) (some (t ∩ S)) := rfl
        rw [h2, ih]

theorem interOpt_isSome : ∀ (L : List (Finset ℤ)) (mask : ℕ), 1 ≤ mask →
    mask < 2 ^ L.length → ∃ t, interOpt L mask none = some t := by
  intro L
  induction L with
  | nil =>
    intro mask h1 h2
    simp at h2
    omega
  | cons S rest ih =>
    intro mask h1 h2
    rcases Nat.mod_two_eq_zero_or_one mask with he | ho
    · have hmeq : mask = 2 * (mask / 2) := by omega
      rw [hmeq, interOpt_cons_even]
      apply ih
      · omega
      · have : (2 : ℕ) ^ (S :: rest).length = 2 * 2 ^ rest.length := by
          rw [List.length_cons, pow_succ, mul_comm]
        omega
    · have hmeq : mask = 2 * (mask / 2) + 1 := by omega
      rw [hmeq, interOpt_cons_odd, interOpt_some_acc]
      exact ⟨_, rfl⟩

theorem computeUnionSize_eq_sum (L : List (Finset ℤ)) :
    computeUnionSize L
      = ∑ m ∈ Finset.Ico 1 (2 ^ L.length), maskSign m * 2 ^ interSize L m := by
  rw [computeUnionSize]
  split
  · next h =>
    rw [h]
    norm_num
  · next h =>
    exact maskList_map_sum _ _

theorem computeUnionSize_cons (S0 : Finset ℤ) (rest : List (Finset ℤ)) :
    computeUnionSize (S0 :: rest)
      = 2 ^ S0.card + computeUnionSize rest
        - computeUnionSize (rest.map fun S => S0 ∩ S) := by
  have hk : (0 : ℕ) < 2 ^ rest.length := Nat.pos_pow_of_pos _ (by norm_num)
  rw [computeUnionSize_eq_sum, computeUnionSize_eq_sum rest,
    computeUnionSize_eq_sum (rest.map fun S => S0 ∩ S), List.length_map]
  have hlen : (2 : ℕ) ^ (S0 :: rest).length = 2 * 2 ^ rest.length := by
    rw [List.length_cons, pow_succ, mul_comm]
  rw [hlen, sum_Ico_one_double _ _ hk]
  have h1 : maskSign 1 * 2 ^ interSize (S0 :: rest) 1 = 2 ^ S0.card := by
    have : interSize (S0 :: rest) 1 = S0.card := by
      rw [interSize]
      have : interOpt (S0 :: rest) 1 none = some S0 := by
        have h10 : (1 : ℕ) = 2 * 0 + 1 := rfl
        rw [h10, interOpt_cons_odd, interOpt_zero]
      rw [this]
    rw [this, maskSign_one, one_mul]
  have hterm : ∀ m ∈ Finset.Ico 1 (2 ^ rest.length),
      maskSign (2 * m) * 2 ^ interSize (S0 :: rest) (2 * m)
        + maskSign (2 * m + 1) * 2 ^ interSize (S0 :: rest) (2 * m + 1)
      = maskSign m * 2 ^ interSize rest m
        - maskSign m * 2 ^ interSize (rest.map fun S => S0 ∩ S) m := by
    intro m hm
    obtain ⟨hm1, hm2⟩ := Finset.mem_Ico.mp hm
    obtain ⟨t, ht⟩ := interOpt_isSome rest m hm1 hm2
    have heven : interSize (S0 :: rest) (2 * m) = interSize rest m := by
      rw [interSize, interSize, interOpt_cons_even]
    have hodd : interSize (S0 :: rest) (2 * m + 1)
        = interSize (rest.map fun S => S0 ∩ S) m := by
      rw [interSize, interSize, interOpt_cons_odd, interOpt_some_acc, ht]
      have hmap : interOpt (rest.map fun S => S0 ∩ S) m none
          = Option.map (fun u => S0 ∩ u) (interOpt rest m none) := by
        have := interOpt_map_inter S0 rest m none
        simpa using this
      rw [hmap, ht]
      rfl
    rw [heven, hodd, maskSign_two_mul, maskSign_two_mul_add_one]
    ring
  rw [Finset.sum_congr rfl hterm, Finset.sum_sub_distrib, h1]
  ring

theorem powerset_inter (s t : Finset ℤ) :
    s.powerset ∩ t.powerset = (s ∩ t).powerset := by
  ext u
  rw [Finset.mem_inter, Finset.mem_powerset, Finset.mem_powerset, Finset.mem_powerset,
    Finset.subset_inter_iff]

theorem powerset_inter_unionPowersets (S0 : Finset ℤ) : ∀ (rest : List (Finset ℤ)),
    S0.powerset ∩ unionPowersets rest = unionPowersets (rest.map fun S => S0 ∩ S) := by
  intro rest
  induction rest with
  | nil => simp [unionPowersets]
  | cons S r ih =>
    show S0.powerset ∩ (S.powerset ∪ unionPowersets r) = _
    rw [Finset.inter_union_distrib_left, powerset_inter, ih]
    rfl

theorem computeUnionSize_eq_card : ∀ (N : ℕ) (sets : List (Finset ℤ)), sets.length = N →
    computeUnionSize sets = ((unionPowersets sets).card : ℤ) := by
  intro N
  induction N using Nat.strong_induction_on with
  | _ N ih =>
    intro sets hN
    cases sets with
    | nil => rfl
    | cons S0 rest =>
      have hrl : rest.length < N := by
        rw [← hN]
        simp
      rw [computeUnionSize_cons, ih rest.length hrl rest rfl,
        ih rest.length hrl (rest.map fun S => S0 ∩ S) (List.length_map ..)]
      have hcard := Finset.card_union_add_card_inter S0.powerset (unionPowersets rest)
      rw [powerset_inter_unionPowersets, Finset.card_powerset] at hcard
      have hshow : unionPowersets (S0 :: rest) = S0.powerset ∪ unionPowersets rest := rfl
      rw [hshow]
      have hcardZ : ((S0.powerset ∪ unionPowersets rest).card : ℤ)
          + ((unionPowersets (rest.map fun S => S0 ∩ S)).card : ℤ)
          = 2 ^ S0.card + ((unionPowersets rest).card : ℤ) := by
        exact_mod_cast hcard
      linarith

end AdfVerifier

/-- C3: for at least one set, the verifier's `compute_union_size` returns
exactly the cardinality of the union of the power sets of the given sets,
computed by signed inclusion-exclusion over all nonempty masks in exact
integer arithmetic. -/
theorem union_size_exact (sets : List (Finset ℤ)) (h : 1 ≤ sets.length) :
    AdfVerifier.computeUnionSize sets = ((AdfVerifier.unionPowersets sets).card : ℤ) :=
  AdfVerifier.computeUnionSize_eq_card sets.length sets rfl

/-- Closed witness for C3 at the concrete decomposition `[{1, 2}]`. -/
theorem union_size_exact_witness :
    1 ≤ ([({1, 2} : Finset ℤ)]).length ∧
    AdfVerifier.computeUnionSize [({1, 2} : Finset ℤ)]
      = ((AdfVerifier.unionPowersets [({1, 2} : Finset ℤ)]).card : ℤ) :=
  ⟨by norm_num, union_size_exact [({1, 2} : Finset ℤ)] (by norm_num)⟩

namespace AdfVerifier

theorem except_map_error {α β : Type} (f : α → β) (e : String) :
    Except.map f (.error e : Except String α) = .error e := rfl

theorem except_map_ok {α β : Type} (f : α → β) (a : α) :
    Except.map f (.ok a : Except String α) = .ok (f a) := rfl

theorem parseElems_ok_forall : ∀ {toks : List (List Char)} {elems : List ℤ},
    parseElems toks = .ok elems → ∀ tok ∈ toks, ∃ v, pyInt tok = some v ∧ 0 ≤ v := by
  intro toks
  induction toks with
  | nil => intro elems _ tok htok; cases htok
  | cons t rest ih =>
    intro elems h tok htok
    rw [parseElems] at h
    cases hi : pyInt t with
    | none => rw [hi] at h; cases h
    | some v =>
      rw [hi] at h
      have h2 : (if v < 0 then (Except.error "Negative element" : Except String (List ℤ))
          else Except.map (fun l => v :: l) (parseElems rest)) = .ok elems := h
      rcases lt_or_ge v 0 with hv | hv
      · rw [if_pos hv] at h2
        cases h2
      · rw [if_neg (not_lt.mpr hv)] at h2
        rcases List.mem_cons.mp htok with rfl | htok'
        · exact ⟨v, hi, hv⟩
        · cases hr : parseElems rest with
          | error e => rw [hr, except_map_error] at h2; cases h2
          | ok l => exact ih hr tok htok'

theorem except_bind_error {α β : Type} (e : String) (f : α → Except String β) :
    (Except.error e : Except String α) >>= f = .error e := rfl

theorem except_bind_ok {α β : Type} (a : α) (f : α → Except String β) :
    (Except.ok a : Except String α) >>= f = f a := rfl

theorem processLine_skippable {raw : String} (h : isSkippable raw = true) (st : PState) :
    processLine st raw = .ok st := by
  rw [isSkippable, Bool.or_eq_true] at h
  rw [processLine]
  rcases h with h1 | h2
  · rw [if_pos (of_decide_eq_true h1)]
  · have h2' : (pyStrip raw.data).head? = some 'c' := eq_of_beq h2
    have hne : ¬ pyStrip raw.data = [] := by
      intro hc
      rw [hc] at h2'
      cases h2'
    rw [if_neg hne, if_pos h2']

theorem isSetLine_eq_false_of_skippable {raw : String} (h : isSkippable raw = true) :
    isSetLine raw = false := by
  rw [isSkippable, Bool.or_eq_true] at h
  rw [isSetLine]
  rcases h with h1 | h2
  · rw [of_decide_eq_true h1]
    rfl
  · have h2' : (pyStrip raw.data).head? = some 'c' := eq_of_beq h2
    rw [h2']
    rfl

theorem processLine_set_no_problem {raw : String} (hset : isSetLine raw = true)
    {st : PState} (hn : st.n = none ∨ st.k = none) :
    processLine st raw = .error "Set line before problem line" := by
  have hs : (pyStrip raw.data).head? = some 's' := by
    rw [isSetLine] at hset
    exact eq_of_beq hset
  have hne : ¬ pyStrip raw.data = [] := by
    intro hc
    rw [hc] at hs
    cases hs
  have hnc : ¬ (pyStrip raw.data).head? = some 'c' := by
    rw [hs]
    intro hc
    cases hc
  have hnp : ¬ (pyStrip raw.data).head? = some 'p' := by
    rw [hs]
    intro hc
    cases hc
  rw [processLine, if_neg hne, if_neg hnc, if_neg hnp, if_pos hs, if_pos hn]

theorem processLine_bad_problem {raw : String} {nv kv : ℤ}
    (hdecl : problemDecl raw = some (nv, kv)) (hbad : nv ≤ 0 ∨ kv ≤ 0) (st : PState) :
    processLine st raw = .error "n and k must be positive" := by
  rw [problemDecl] at hdecl
  split at hdecl
  · next hcond =>
    obtain ⟨hp, hlen4, halpha⟩ := hcond
    cases hn2 : pyInt ((pySplit (pyStrip raw.data)).getD 2 []) with
    | none => rw [hn2] at hdecl; cases hdecl
    | some nv' =>
      cases hn3 : pyInt ((pySplit (pyStrip raw.data)).getD 3 []) with
      | none => rw [hn2, hn3] at hdecl; cases hdecl
      | some kv' =>
        rw [hn2, hn3] at hdecl
        simp only [Option.some.injEq, Prod.mk.injEq] at hdecl
        obtain ⟨h1, h2⟩ := hdecl
        subst h1
        subst h2
        have hne : ¬ pyStrip raw.data = [] := by
          intro hc
          rw [hc] at hp
          cases hp
        have hnc : ¬ (pyStrip raw.data).head? = some 'c' := by
          rw [hp]
          intro hc
          cases hc
        rw [processLine, if_neg hne, if_neg hnc, if_pos hp,
          if_neg (show ¬ ((pySplit (pyStrip raw.data)).length ≠ 4 ∨
            (pySplit (pyStrip raw.data)).getD 1 [] ≠ "alpha".data) by push_neg; exact ⟨hlen4, halpha⟩),
          hn2, hn3]
        show (if nv' ≤ 0 ∨ kv' ≤ 0 then (Except.error "n and k must be positive")
            else Except.ok { st with n := some nv', k := some kv' })
          = Except.error "n and k must be positive"
        rw [if_pos hbad]
  · cases hdecl

theorem processLine_ok_cases {st st' : PState} {raw : String}
    (h : processLine st raw = .ok st') :
    (isSkippable raw = true ∧ st' = st) ∨
    (isProblemLine raw = true ∧ ∃ nv kv : ℤ, 0 < nv ∧ 0 < kv ∧
      st' = { st with n := some nv, k := some kv }) ∨
    (isSetLine raw = true ∧ st.n ≠ none ∧ st.k ≠ none ∧
      pyInt ((pySplit (pyStrip raw.data)).getD 1 []) = some st.expected ∧
      (pySplit (pyStrip raw.data)).getLast? = some ['0'] ∧
      (∀ tok ∈ ((pySplit (pyStrip raw.data)).drop 2).dropLast,
        ∃ v, pyInt tok = some v ∧ 0 ≤ v) ∧
      ∃ X, st' = { st with sets := st.sets ++ [X], expected := st.expected + 1 }) := by
  rw [processLine] at h
  split at h
  · next hempty =>
    left
    rw [Except.ok.injEq] at h
    refine ⟨?_, h.symm⟩
    rw [isSkippable, hempty]
    simp
  · split at h
    · next hc =>
      left
      rw [Except.ok.injEq] at h
      refine ⟨?_, h.symm⟩
      rw [isSkippable, hc]
      simp
    · split at h
      · next hp =>
        right; left
        split at h
        · cases h
        · cases hn2 : pyInt ((pySplit (pyStrip raw.data)).getD 2 []) with
          | none => rw [hn2] at h; cases h
          | some nv =>
            cases hn3 : pyInt ((pySplit (pyStrip raw.data)).getD 3 []) with
            | none => rw [hn2, hn3] at h; cases h
            | some kv =>
              rw [hn2, hn3] at h
              have h' : (if nv ≤ 0 ∨ kv ≤ 0 then (Except.error "n and k must be positive")
                  else Except.ok { st with n := some nv, k := some kv }) = .ok st' := h
              refine ⟨by rw [isProblemLine, hp]; simp, ?_⟩
              by_cases hpos : nv ≤ 0 ∨ kv ≤ 0
              · rw [if_pos hpos] at h'
                cases h'
              · rw [if_neg hpos] at h'
                push_neg at hpos
                rw [Except.ok.injEq] at h'
                exact ⟨nv, kv, by omega, by omega, h'.symm⟩
      · split at h
        · next hs =>
          right; right
          split at h
          · cases h
          · next hnk =>
            push_neg at hnk
            split at h
            · cases h
            · cases hsid : pyInt ((pySplit (pyStrip raw.data)).getD 1 []) with
              | none => rw [hsid] at h; cases h
              | some sid =>
                rw [hsid] at h
                have h' : (if sid ≠ st.expected then
                      (Except.error "Unexpected set id" : Except String PState)
                    else if (pySplit (pyStrip raw.data)).getLast? ≠ some ['0'] then
                      Except.error "Set line must end with 0"
                    else
                      match parseElems (((pySplit (pyStrip raw.data)).drop 2).dropLast) with
                      | Except.error e => Except.error e
                      | Except.ok elems =>
                        Except.ok ⟨st.n, st.k, st.sets ++ [elems.toFinset],
                          st.expected + 1⟩) = Except.ok st' := h
                by_cases hsideq : sid ≠ st.expected
                · rw [if_pos hsideq] at h'
                  cases h'
                · rw [if_neg hsideq] at h'
                  push_neg at hsideq
                  by_cases hterm : (pySplit (pyStrip raw.data)).getLast? ≠ some ['0']
                  · rw [if_pos hterm] at h'
                    cases h'
                  · rw [if_neg hterm] at h'
                    push_neg at hterm
                    cases helems :
                        parseElems (((pySplit (pyStrip raw.data)).drop 2).dropLast) with
                    | error e => rw [helems] at h'; cases h'
                    | ok elems =>
                      rw [helems] at h'
                      rw [Except.ok.injEq] at h'
                      refine ⟨by rw [isSetLine, hs]; simp, hnk.1, hnk.2, ?_, hterm, ?_, ?_⟩
                      · rw [hsideq]
                      · exact parseElems_ok_forall helems
                      · exact ⟨elems.toFinset, h'.symm⟩
        · cases h

end AdfVerifier

namespace AdfVerifier

theorem parseADF_eq (lines : List String) :
    parseADF lines = (lines.foldlM processLine initState) >>= fun st =>
      match st.n, st.k with
      | some nv, some kv =>
        if (st.sets.length : ℤ) ≠ kv then .error "Wrong number of sets"
        else .ok (nv, kv, st.sets)
      | _, _ => .error "Wrong number of sets" := rfl

theorem foldlM_keep_none : ∀ (lines : List String) (st : PState),
    (∀ raw ∈ lines, isProblemLine raw = false) → st.n = none → st.k = none →
    (∃ e, lines.foldlM processLine st = .error e) ∨
    (∃ st', lines.foldlM processLine st = .ok st' ∧ st'.n = none ∧ st'.k = none) := by
  intro lines
  induction lines with
  | nil => intro st _ hn hk; right; exact ⟨st, rfl, hn, hk⟩
  | cons raw rest ih =>
    intro st hnp hn hk
    rw [List.foldlM_cons]
    cases hr : processLine st raw with
    | error e =>
      left
      exact ⟨e, by rw [except_bind_error]⟩
    | ok st1 =>
      rw [except_bind_ok]
      rcases processLine_ok_cases hr with ⟨hsk, heq⟩ | ⟨hpl, _⟩ |
        ⟨hsl, hne, _⟩
      · exact ih st1 (fun l hl => hnp l (by simp [hl])) (by rw [heq]; exact hn)
          (by rw [heq]; exact hk)
      · rw [hnp raw (by simp)] at hpl
        cases hpl
      · exact absurd hn hne

theorem parse_no_problem_line {lines : List String}
    (h : ∀ raw ∈ lines, isProblemLine raw = false) :
    ∃ e, parseADF lines = .error e := by
  rw [parseADF_eq]
  rcases foldlM_keep_none lines initState h rfl rfl with ⟨e, he⟩ | ⟨st', hst', hn', hk'⟩
  · exact ⟨e, by rw [he, except_bind_error]⟩
  · refine ⟨"Wrong number of sets", ?_⟩
    rw [hst', except_bind_ok, hn', hk']

theorem foldlM_skippable_prefix : ∀ (pre : List String) (st : PState),
    (∀ l ∈ pre, isSkippable l = true) → pre.foldlM processLine st = .ok st := by
  intro pre
  induction pre with
  | nil => intro st _; rfl
  | cons l rest ih =>
    intro st hpre
    rw [List.foldlM_cons, processLine_skippable (hpre l (by simp)) st, except_bind_ok]
    exact ih st (fun l' hl' => hpre l' (by simp [hl']))

theorem parse_set_before_problem {pre : List String} {raw : String} {post : List String}
    (hpre : ∀ l ∈ pre, isSkippable l = true) (hset : isSetLine raw = true) :
    ∃ e, parseADF (pre ++ raw :: post) = .error e := by
  refine ⟨"Set line before problem line", ?_⟩
  rw [parseADF_eq, List.foldlM_append, foldlM_skippable_prefix pre initState hpre,
    except_bind_ok, List.foldlM_cons, processLine_set_no_problem hset (Or.inl rfl),
    except_bind_error, except_bind_error]

theorem parse_error_of_fatal_line {lines : List String} {raw : String}
    (hmem : raw ∈ lines) (hfatal : ∀ st : PState, ∃ e, processLine st raw = .error e) :
    ∃ e, parseADF lines = .error e := by
  obtain ⟨l1, l2, rfl⟩ := List.append_of_mem hmem
  rw [parseADF_eq, List.foldlM_append]
  cases hf : l1.foldlM processLine initState with
  | error e => exact ⟨e, by rw [except_bind_error, except_bind_error]⟩
  | ok st1 =>
    obtain ⟨e, he⟩ := hfatal st1
    refine ⟨e, ?_⟩
    rw [except_bind_ok, List.foldlM_cons, he, except_bind_error, except_bind_error]

theorem isSetLine_eq_false_of_problem {raw : String} (h : isProblemLine raw = true) :
    isSetLine raw = false := by
  rw [isProblemLine] at h
  rw [isSetLine, eq_of_beq h]
  rfl

theorem setIds_cons_of_not (raw : String) (rest : List String)
    (h : isSetLine raw = false) : setIds (raw :: rest) = setIds rest := by
  simp [setIds, List.filter_cons, h]

theorem setIds_cons_of (raw : String) (rest : List String) (h : isSetLine raw = true) :
    setIds (raw :: rest)
      = pyInt ((pySplit (pyStrip raw.data)).getD 1 []) :: setIds rest := by
  simp [setIds, List.filter_cons, h]

theorem foldlM_ok_structure : ∀ (lines : List String) (st st' : PState),
    lines.foldlM processLine st = .ok st' →
    (∃ m : ℕ, st'.sets.length = st.sets.length + m ∧
      st'.expected = st.expected + (m : ℤ) ∧
      setIds lines = (List.range m).map (fun i : ℕ => some (st.expected + (i : ℤ)))) ∧
    (∀ raw ∈ lines, isSetLine raw = true →
      (pySplit (pyStrip raw.data)).getLast? = some ['0'] ∧
      (∀ tok ∈ ((pySplit (pyStrip raw.data)).drop 2).dropLast,
        ∃ v, pyInt tok = some v ∧ 0 ≤ v)) := by
  intro lines
  induction lines with
  | nil =>
    intro st st' h
    have h' : st = st' := by
      have : (Except.ok st : Except String PState) = .ok st' := h
      rw [Except.ok.injEq] at this
      exact this
    subst h'
    refine ⟨⟨0, by omega, by simp, by simp [setIds]⟩, ?_⟩
    intro raw hraw
    cases hraw
  | cons raw rest ih =>
    intro st st' h
    rw [List.foldlM_cons] at h
    cases hr : processLine st raw with
    | error e => rw [hr, except_bind_error] at h; cases h
    | ok st1 =>
      rw [hr, except_bind_ok] at h
      obtain ⟨⟨m, hlen, hexp, hids⟩, hgood⟩ := ih st1 st' h
      rcases processLine_ok_cases hr with ⟨hsk, rfl⟩ | ⟨hpl, nv, kv, _, _, rfl⟩ |
        ⟨hsl, _, _, hsid, hterm, hlab, X, rfl⟩
      · have hnotset := isSetLine_eq_false_of_skippable hsk
        refine ⟨⟨m, hlen, hexp, by rw [setIds_cons_of_not raw rest hnotset]; exact hids⟩, ?_⟩
        intro raw' hmem' hset'
        rcases List.mem_cons.mp hmem' with rfl | hmem''
        · rw [hnotset] at hset'; cases hset'
        · exact hgood raw' hmem'' hset'
      · have hnotset := isSetLine_eq_false_of_problem hpl
        refine ⟨⟨m, by simpa using hlen, by simpa using hexp,
          by rw [setIds_cons_of_not raw rest hnotset]; simpa using hids⟩, ?_⟩
        intro raw' hmem' hset'
        rcases List.mem_cons.mp hmem' with rfl | hmem''
        · rw [hnotset] at hset'; cases hset'
        · exact hgood raw' hmem'' hset'
      · refine ⟨⟨m + 1, ?_, ?_, ?_⟩, ?_⟩
        · simp only [List.length_append, List.length_cons, List.length_nil] at hlen ⊢
          omega
        · simp only [] at hexp
          push_cast
          linarith
        · rw [setIds_cons_of raw rest hsl, hsid, hids]
          rw [List.range_succ_eq_map, List.map_cons, List.map_map]
          congr 1
          · simp
          · apply List.map_congr_left
            intro i _
            simp only [Function.comp_apply, Option.some.injEq]
            push_cast
            ring
        · intro raw' hmem' hset'
          rcases List.mem_cons.mp hmem' with rfl | hmem''
          · exact ⟨hterm, hlab⟩
          · exact hgood raw' hmem'' hset'

theorem parse_ok_wellformed {lines : List String} {n k : ℤ} {sets : List (Finset ℤ)}
    (h : parseADF lines = .ok (n, k, sets)) :
    sequentialIds lines ∧
    (∀ raw ∈ lines, isSetLine raw = true → hasTerminator raw ∧ labelsOK raw) := by
  rw [parseADF_eq] at h
  cases hf : lines.foldlM processLine initState with
  | error e => rw [hf, except_bind_error] at h; cases h
  | ok st' =>
    obtain ⟨⟨m, hlen, hexp, hids⟩, hgood⟩ := foldlM_ok_structure lines initState st' hf
    constructor
    · rw [sequentialIds, hids]
      have hlm : ((List.range m).map
          (fun i : ℕ => some (initState.expected + (i : ℤ)))).length = m := by
        rw [List.length_map, List.length_range]
      rw [hlm]
      apply List.map_congr_left
      intro i _
      show some (initState.expected + (i : ℤ)) = some ((i : ℤ) + 1)
      rw [Option.some.injEq]
      show (1 : ℤ) + (i : ℤ) = (i : ℤ) + 1
      ring
    · intro raw hraw hset
      exact hgood raw hraw hset

end AdfVerifier

/-- C7 counterexample: an artifact with two problem lines, the second of
which appears after a set line, is accepted by the parser (the later
declaration overwrites `n` and `k`), contradicting the claim that more than
one problem line, or a problem line after a set line, is rejected. -/
theorem multiple_problem_lines_accepted :
    AdfVerifier.parseADF ["p alpha 3 1", "s 1 1 2 0", "p alpha 4 1"]
      = .ok (4, 1, [({1, 2} : Finset ℤ)]) := by
  rfl

/-- C7 (amended): parsing fails when no problem line appears at all, when the
first non-skippable line is a set line, or when any well-formed problem line
declares a non-positive `n` or `k`; however several problem lines (each
overwriting `n` and `k`, even after set lines) are accepted. -/
theorem problem_line_rules_amended :
    (∀ lines : List String, (∀ raw ∈ lines, AdfVerifier.isProblemLine raw = false) →
      ∃ e, AdfVerifier.parseADF lines = .error e) ∧
    (∀ (pre : List String) (raw : String) (post : List String),
      (∀ l ∈ pre, AdfVerifier.isSkippable l = true) → AdfVerifier.isSetLine raw = true →
      ∃ e, AdfVerifier.parseADF (pre ++ raw :: post) = .error e) ∧
    (∀ (lines : List String) (raw : String) (nv kv : ℤ), raw ∈ lines →
      AdfVerifier.problemDecl raw = some (nv, kv) → nv ≤ 0 ∨ kv ≤ 0 →
      ∃ e, AdfVerifier.parseADF lines = .error e) := by
  refine ⟨fun lines h => AdfVerifier.parse_no_problem_line h,
    fun pre raw post hpre hset => AdfVerifier.parse_set_before_problem hpre hset,
    fun lines raw nv kv hmem hdecl hbad => ?_⟩
  exact AdfVerifier.parse_error_of_fatal_line hmem
    (fun st => ⟨_, AdfVerifier.processLine_bad_problem hdecl hbad st⟩)

/-- Closed witness for the amended C7: a comment-only artifact has no problem
line and fails to parse. -/
theorem problem_line_rules_amended_witness :
    (∀ raw ∈ ["c only a comment"], AdfVerifier.isProblemLine raw = false) ∧
    ∃ e, AdfVerifier.parseADF ["c only a comment"] = .error e :=
  ⟨by decide, problem_line_rules_amended.1 ["c only a comment"] (by decide)⟩

/-- C8: an artifact whose set lines are not in strictly increasing sequential
order starting at 1, or with a set line lacking the terminating `0` marker,
or containing a negative (or non-integer) element label, fails to parse. -/
theorem parser_rejects_bad_set_lines (lines : List String)
    (h : ¬ AdfVerifier.sequentialIds lines ∨
      ∃ raw ∈ lines, AdfVerifier.isSetLine raw = true ∧
        (¬ AdfVerifier.hasTerminator raw ∨ ¬ AdfVerifier.labelsOK raw)) :
    ∃ e, AdfVerifier.parseADF lines = .error e := by
  cases hp : AdfVerifier.parseADF lines with
  | error e => exact ⟨e, rfl⟩
  | ok v =>
    obtain ⟨n, k, sets⟩ := v
    obtain ⟨hseq, hgood⟩ := AdfVerifier.parse_ok_wellformed hp
    rcases h with hbad | ⟨raw, hmem, hset, hbad⟩
    · exact absurd hseq hbad
    · rcases hbad with hb | hb
      · exact absurd (hgood raw hmem hset).1 hb
      · exact absurd (hgood raw hmem hset).2 hb

/-- Closed witness for C8: set line 2 appearing before set line 1 makes
parsing fail. -/
theorem parser_rejects_bad_set_lines_witness :
    (¬ AdfVerifier.sequentialIds ["p alpha 3 2", "s 2 1 0", "s 1 2 0"] ∨
      ∃ raw ∈ ["p alpha 3 2", "s 2 1 0", "s 1 2 0"], AdfVerifier.isSetLine raw = true ∧
        (¬ AdfVerifier.hasTerminator raw ∨ ¬ AdfVerifier.labelsOK raw)) ∧
    ∃ e, AdfVerifier.parseADF ["p alpha 3 2", "s 2 1 0", "s 1 2 0"] = .error e :=
  ⟨Or.inl (by decide),
    parser_rejects_bad_set_lines ["p alpha 3 2", "s 2 1 0", "s 1 2 0"]
      (Or.inl (by decide))⟩
